import Mathlib

/-!
Verification development for the Network-Monitor capture engine.

The C++ sources are shallowly embedded: machine integers become `Nat`
(with explicit `% 2^w` where wraparound matters), `std::string` becomes
`String`/`List Char`, `std::deque`/`std::vector` become `List`,
`std::map`/`std::unordered_map` become association lists, `double`-valued
rates become `ℚ`, `std::chrono` time points become `Nat` tick counts, and
fallible operations return `Option`.  Loops of the C++ code are embedded
as structurally recursive functions over an explicit fuel argument whose
initial value dominates the loop's termination measure.
-/

set_option maxRecDepth 2000

namespace NetMon

/-- A captured byte, as fetched through a `const uint8_t*`: the fetch of
an arbitrary `Nat`-valued memory model is reduced mod 256. -/
def byteAt (d : Nat → Nat) (i : Nat) : Nat := d i % 256

/-- Two memory models agree on every index below `n`. -/
def agreeBelow (n : Nat) (d₁ d₂ : Nat → Nat) : Prop :=
  ∀ i, i < n → d₁ i = d₂ i

theorem byteAt_congr {n : Nat} {d₁ d₂ : Nat → Nat} (h : agreeBelow n d₁ d₂)
    {i : Nat} (hi : i < n) : byteAt d₁ i = byteAt d₂ i := by
  simp [byteAt, h i hi]

/-- `ntohs` applied to two consecutive bytes: big-endian 16-bit read. -/
def read16 (d : Nat → Nat) (i : Nat) : Nat := byteAt d i * 256 + byteAt d (i + 1)

theorem read16_congr {n : Nat} {d₁ d₂ : Nat → Nat} (h : agreeBelow n d₁ d₂)
    {i : Nat} (hi : i + 1 < n) : read16 d₁ i = read16 d₂ i := by
  have h0 : i < n := Nat.lt_of_le_of_lt (Nat.le_succ i) hi
  simp [read16, byteAt_congr h h0, byteAt_congr h hi]

/-- Read `len` consecutive bytes starting at `off` as characters
(the embedding of copying bytes into a `std::string`). -/
def readChars (d : Nat → Nat) (off len : Nat) : List Char :=
  (List.range len).map (fun j => Char.ofNat (byteAt d (off + j)))

theorem readChars_congr {n : Nat} {d₁ d₂ : Nat → Nat} (h : agreeBelow n d₁ d₂)
    {off len : Nat} (hb : off + len ≤ n) :
    readChars d₁ off len = readChars d₂ off len := by
  unfold readChars
  refine List.map_congr_left (fun j hj => ?_)
  have hj' : j < len := List.mem_range.mp hj
  have : off + j < n := Nat.lt_of_lt_of_le (Nat.add_lt_add_left hj' off) hb
  rw [byteAt_congr h this]

/-- Read `len` consecutive bytes starting at `off` as a list of byte values
(the embedding of `std::vector<uint8_t>::assign`, and of copying MAC bytes). -/
def readBytes (d : Nat → Nat) (off len : Nat) : List Nat :=
  (List.range len).map (fun j => byteAt d (off + j))

theorem readBytes_congr {n : Nat} {d₁ d₂ : Nat → Nat} (h : agreeBelow n d₁ d₂)
    {off len : Nat} (hb : off + len ≤ n) :
    readBytes d₁ off len = readBytes d₂ off len := by
  unfold readBytes
  refine List.map_congr_left (fun j hj => ?_)
  have hj' : j < len := List.mem_range.mp hj
  have : off + j < n := Nat.lt_of_lt_of_le (Nat.add_lt_add_left hj' off) hb
  rw [byteAt_congr h this]

/-- ASCII lowercase of one character, the embedding of `std::tolower`. -/
def asciiLower (c : Char) : Char :=
  if 'A' ≤ c ∧ c ≤ 'Z' then Char.ofNat (c.toNat + 32) else c

/-- Lowercase every character of a string (`std::transform` with `tolower`). -/
def lowerStr (s : String) : String := ⟨s.data.map asciiLower⟩

/-- `PacketInfo`, the canonical decoded record (packet.hpp).  The fields
`hostname`, `app_protocol`, `app_info`, `watchlist_match` and
`watchlist_label` are declared in the application-layer variant of the
header; their types are evident from every use in the sources.
The capture timestamp is a `Nat` tick count. -/
structure PacketInfo where
  timestamp : Nat := 0
  length : Nat := 0
  original_length : Nat := 0
  src_mac : List Nat := [0, 0, 0, 0, 0, 0]
  dst_mac : List Nat := [0, 0, 0, 0, 0, 0]
  ether_type : Nat := 0
  ip_version : Nat := 0
  src_ip : String := ""
  dst_ip : String := ""
  protocol : Nat := 0
  ttl : Nat := 0
  src_port : Nat := 0
  dst_port : Nat := 0
  tcp_flags : Nat := 0
  hostname : String := ""
  app_protocol : String := ""
  app_info : String := ""
  watchlist_match : Bool := false
  watchlist_label : String := ""
  raw_data : List Nat := []
deriving Repr, DecidableEq, Inhabited

def PROTO_ICMP : Nat := 1
def PROTO_TCP : Nat := 6
def PROTO_UDP : Nat := 17
def PROTO_ICMPV6 : Nat := 58

def ETHERTYPE_IPV4 : Nat := 0x0800
def ETHERTYPE_ARP : Nat := 0x0806
def ETHERTYPE_IPV6 : Nat := 0x86DD

/-- `PacketInfo::protocol_name` (packet.hpp variant, which consults the
application protocol first). -/
def PacketInfo.protocol_name (p : PacketInfo) : String :=
  if p.app_protocol ≠ "" then p.app_protocol
  else if p.ether_type = ETHERTYPE_ARP then "ARP"
  else if p.protocol = PROTO_ICMP then "ICMP"
  else if p.protocol = PROTO_TCP then "TCP"
  else if p.protocol = PROTO_UDP then "UDP"
  else if p.protocol = PROTO_ICMPV6 then "ICMPv6"
  else if p.ip_version = 4 ∨ p.ip_version = 6 then "IP/" ++ toString p.protocol
  else "ETH"

/-- `InterfaceStats` (packet_store.hpp).  `std::map<std::string, uint64_t>`
is embedded as a total function with pointwise update; the `double` rates
become `ℚ`; the steady-clock time point becomes a `ℚ` count of seconds. -/
structure InterfaceStats where
  name : String := ""
  packets_received : Nat := 0
  bytes_received : Nat := 0
  packets_per_second : ℚ := 0
  bytes_per_second : ℚ := 0
  protocol_counts : String → Nat := fun _ => 0
  protocol_bytes : String → Nat := fun _ => 0
  last_rate_update : ℚ := 0
  last_packets : Nat := 0
  last_bytes : Nat := 0
  pps_history : List ℚ := []
  bps_history : List ℚ := []

def MAX_HISTORY : Nat := 60

/-- `PacketStore` state (packet_store.hpp): the deque of packets (front =
oldest), the statistics block, and the selected-for-detail index. -/
structure PacketStore where
  packets : List PacketInfo := []
  stats : InterfaceStats := {}
  selected_index : Nat := 0

def MAX_PACKETS : Nat := 10000

/-- `PacketStore::update_stats_unlocked`. -/
def update_stats_unlocked (s : InterfaceStats) (pkt : PacketInfo) : InterfaceStats :=
  let proto := pkt.protocol_name
  { s with
    packets_received := s.packets_received + 1
    bytes_received := s.bytes_received + pkt.original_length
    protocol_counts := fun k => if k = proto then s.protocol_counts k + 1 else s.protocol_counts k
    protocol_bytes := fun k =>
      if k = proto then s.protocol_bytes k + pkt.original_length else s.protocol_bytes k }

/-- `PacketStore::push`: append, update statistics, and beyond capacity
evict the oldest record and pull the selected index down. -/
def PacketStore.push (s : PacketStore) (packet : PacketInfo) : PacketStore :=
  let packets' := s.packets ++ [packet]
  let stats' := update_stats_unlocked s.stats packet
  if MAX_PACKETS < packets'.length then
    { packets := packets'.tail
      stats := stats'
      selected_index := if 0 < s.selected_index then s.selected_index - 1 else s.selected_index }
  else
    { packets := packets', stats := stats', selected_index := s.selected_index }

/-- Pushing a whole list of records in order. -/
def PacketStore.pushAll (s : PacketStore) (rs : List PacketInfo) : PacketStore :=
  rs.foldl PacketStore.push s

/-- `PacketStore::update_rates` at steady-clock time `now` (seconds). -/
def PacketStore.update_rates (s : PacketStore) (now : ℚ) : PacketStore :=
  let elapsed := now - s.stats.last_rate_update
  if 1 ≤ elapsed then
    let delta_packets := s.stats.packets_received - s.stats.last_packets
    let delta_bytes := s.stats.bytes_received - s.stats.last_bytes
    let pps := (delta_packets : ℚ) / elapsed
    let bps := (delta_bytes : ℚ) / elapsed
    let pps_history' := s.stats.pps_history ++ [pps]
    let bps_history' := s.stats.bps_history ++ [bps]
    { s with stats :=
      { s.stats with
        packets_per_second := pps
        bytes_per_second := bps
        pps_history := if MAX_HISTORY < pps_history'.length then pps_history'.tail else pps_history'
        bps_history := if MAX_HISTORY < bps_history'.length then bps_history'.tail else bps_history'
        last_packets := s.stats.packets_received
        last_bytes := s.stats.bytes_received
        last_rate_update := now } }
  else s

/-- `Alert` (watchlist.hpp). -/
structure Alert where
  timestamp : Nat := 0
  matched_value : String := ""
  pattern : String := ""
  label : String := ""
  packet_index : Nat := 0
deriving Repr, DecidableEq, Inhabited

def MAX_ALERTS : Nat := 100

/-- The alert-holding part of `Watchlist` state (watchlist.hpp): the
most-recent-first deque of alerts, the new-alerts flag, and the alert log
(modelled as the list of alerts appended to the log file; the textual
rendering of a line is display formatting only). -/
structure WatchlistAlerts where
  alerts : List Alert := []
  has_new_alerts_ : Bool := false
  log_filepath : String := ""
  alert_log : List Alert := []

/-- `Watchlist::add_alert`: push front, truncate beyond `MAX_ALERTS`,
raise the new-alerts flag, and append to the log when configured. -/
def WatchlistAlerts.add_alert (s : WatchlistAlerts) (alert : Alert) : WatchlistAlerts :=
  let alerts' := alert :: s.alerts
  { s with
    alerts := if MAX_ALERTS < alerts'.length then alerts'.dropLast else alerts'
    has_new_alerts_ := true
    alert_log := if s.log_filepath ≠ "" then s.alert_log ++ [alert] else s.alert_log }

/-- Adding a whole list of alerts in order. -/
def WatchlistAlerts.addAll (s : WatchlistAlerts) (as : List Alert) : WatchlistAlerts :=
  as.foldl WatchlistAlerts.add_alert s

/-- `Watchlist::has_new_alerts`: `exchange(false)` on the flag — returns
the old flag value and the state with the flag cleared. -/
def WatchlistAlerts.has_new_alerts (s : WatchlistAlerts) : Bool × WatchlistAlerts :=
  (s.has_new_alerts_, { s with has_new_alerts_ := false })

section StoreLemmas

theorem push_packets_of_lt {s : PacketStore} {p : PacketInfo}
    (h : s.packets.length < MAX_PACKETS) :
    (s.push p).packets = s.packets ++ [p] := by
  have hc : ¬ MAX_PACKETS < (s.packets ++ [p]).length := by
    simp only [List.length_append, List.length_singleton]
    omega
  simp only [PacketStore.push]
  rw [if_neg hc]

theorem push_packets_of_eq {s : PacketStore} {p : PacketInfo}
    (h : s.packets.length = MAX_PACKETS) :
    (s.push p).packets = s.packets.tail ++ [p] := by
  have hne : s.packets ≠ [] := by
    intro hnil
    rw [hnil] at h
    simp [MAX_PACKETS] at h
  obtain ⟨a, t, ht⟩ := List.exists_cons_of_ne_nil hne
  have hc : MAX_PACKETS < (s.packets ++ [p]).length := by
    simp only [List.length_append, List.length_singleton]
    omega
  simp only [PacketStore.push]
  rw [if_pos hc, ht]
  simp

theorem pushAll_packets_drop :
    ∀ (rs : List PacketInfo) (s : PacketStore), s.packets.length ≤ MAX_PACKETS →
      (s.pushAll rs).packets
        = (s.packets ++ rs).drop (s.packets.length + rs.length - MAX_PACKETS) := by
  intro rs
  induction rs with
  | nil =>
    intro s hs
    have h0 : s.packets.length + ([] : List PacketInfo).length - MAX_PACKETS = 0 := by
      simp only [List.length_nil, MAX_PACKETS] at *
      omega
    rw [h0]
    simp [PacketStore.pushAll]
  | cons p rs' ih =>
    intro s hs
    have hstep : s.pushAll (p :: rs') = (s.push p).pushAll rs' := rfl
    rcases Nat.lt_or_ge s.packets.length MAX_PACKETS with hlt | hge
    · have hpk := push_packets_of_lt (s := s) (p := p) hlt
      have hlen : (s.push p).packets.length ≤ MAX_PACKETS := by
        rw [hpk]
        simp only [List.length_append, List.length_singleton, List.length_cons, List.length_nil, MAX_PACKETS] at hlt ⊢
        omega
      have h1 : (s.packets ++ [p]) ++ rs' = s.packets ++ (p :: rs') := by
        rw [List.append_assoc]
        rfl
      have h2 : (s.packets ++ [p]).length + rs'.length - MAX_PACKETS
          = s.packets.length + (p :: rs').length - MAX_PACKETS := by
        simp only [List.length_append, List.length_singleton, List.length_cons, List.length_nil, MAX_PACKETS]
        omega
      calc (s.pushAll (p :: rs')).packets
          = ((s.push p).pushAll rs').packets := by rw [hstep]
        _ = ((s.push p).packets ++ rs').drop
              ((s.push p).packets.length + rs'.length - MAX_PACKETS) := ih _ hlen
        _ = ((s.packets ++ [p]) ++ rs').drop
              ((s.packets ++ [p]).length + rs'.length - MAX_PACKETS) := by rw [hpk]
        _ = (s.packets ++ (p :: rs')).drop
              (s.packets.length + (p :: rs').length - MAX_PACKETS) := by rw [h1, h2]
    · have heq : s.packets.length = MAX_PACKETS := Nat.le_antisymm hs hge
      have hpk := push_packets_of_eq (s := s) (p := p) heq
      have hne : s.packets ≠ [] := by
        intro hnil
        rw [hnil] at heq
        simp [MAX_PACKETS] at heq
      obtain ⟨a, t, ht⟩ := List.exists_cons_of_ne_nil hne
      have htlen : t.length + 1 = MAX_PACKETS := by
        rw [ht] at heq
        simpa using heq
      have hpk' : (s.push p).packets = t ++ [p] := by
        rw [hpk, ht]
        rfl
      have hlen : (s.push p).packets.length ≤ MAX_PACKETS := by
        rw [hpk']
        simp only [List.length_append, List.length_singleton]
        omega
      have h1 : (t ++ [p]) ++ rs' = t ++ (p :: rs') := by
        rw [List.append_assoc]
        rfl
      have h2 : (t ++ [p]).length + rs'.length - MAX_PACKETS = rs'.length := by
        simp only [List.length_append, List.length_singleton]
        omega
      have h3 : s.packets.length + (p :: rs').length - MAX_PACKETS = rs'.length + 1 := by
        rw [ht]
        simp only [List.length_cons]
        omega
      calc (s.pushAll (p :: rs')).packets
          = ((s.push p).pushAll rs').packets := by rw [hstep]
        _ = ((s.push p).packets ++ rs').drop
              ((s.push p).packets.length + rs'.length - MAX_PACKETS) := ih _ hlen
        _ = ((t ++ [p]) ++ rs').drop ((t ++ [p]).length + rs'.length - MAX_PACKETS) := by
              rw [hpk']
        _ = (t ++ (p :: rs')).drop rs'.length := by rw [h1, h2]
        _ = (a :: (t ++ (p :: rs'))).drop (rs'.length + 1) := by
              rw [List.drop_succ_cons]
        _ = (s.packets ++ (p :: rs')).drop
              (s.packets.length + (p :: rs').length - MAX_PACKETS) := by
              rw [h3, ht]
              rfl

end StoreLemmas

/-- The freshly constructed, empty packet store. -/
def emptyStore : PacketStore := {}

theorem emptyStore_packets : emptyStore.packets = [] := rfl

/-- C1.  Packet Store push: (1) from an empty store the stored sequence
never exceeds the capacity 10000; (2) after pushing `capacity + k` records
exactly `capacity` remain, namely the pushed sequence with its oldest `k`
records evicted and the relative order of the rest preserved; (3) on each
eviction the selected-for-detail index is decremented when nonzero and
left at zero otherwise. -/
theorem claim_C1_packet_store_push_bounded :
    (∀ rs : List PacketInfo, ((emptyStore.pushAll rs).packets.length ≤ MAX_PACKETS))
    ∧ (∀ (rs : List PacketInfo) (k : Nat), rs.length = MAX_PACKETS + k →
        (emptyStore.pushAll rs).packets = rs.drop k)
    ∧ (∀ (s : PacketStore) (p : PacketInfo), MAX_PACKETS ≤ s.packets.length →
        ((0 < s.selected_index → (s.push p).selected_index = s.selected_index - 1)
          ∧ (s.selected_index = 0 → (s.push p).selected_index = 0))) := by
  have hempty : emptyStore.packets.length ≤ MAX_PACKETS := by
    rw [emptyStore_packets]
    simp [MAX_PACKETS]
  refine ⟨?_, ?_, ?_⟩
  · intro rs
    have h := pushAll_packets_drop rs emptyStore hempty
    rw [h, emptyStore_packets]
    simp only [List.nil_append, List.length_nil, Nat.zero_add, List.length_drop, MAX_PACKETS]
    omega
  · intro rs k hk
    have h := pushAll_packets_drop rs emptyStore hempty
    rw [h, emptyStore_packets]
    simp only [List.nil_append, List.length_nil, Nat.zero_add]
    have : rs.length - MAX_PACKETS = k := by
      rw [hk]
      omega
    rw [this]
  · intro s p hge
    have hc : MAX_PACKETS < (s.packets ++ [p]).length := by
      simp only [List.length_append, List.length_singleton]
      omega
    have hsel : (s.push p).selected_index
        = if 0 < s.selected_index then s.selected_index - 1 else s.selected_index := by
      simp only [PacketStore.push]
      rw [if_pos hc]
    constructor
    · intro hpos
      rw [hsel, if_pos hpos]
    · intro hzero
      rw [hsel, if_neg (by omega)]
      exact hzero

/-- Witness for C1 at a concrete input: 10001 pushed records leave the
last 10000. -/
theorem claim_C1_witness :
    (List.replicate 10001 (default : PacketInfo)).length = MAX_PACKETS + 1
    ∧ (emptyStore.pushAll (List.replicate 10001 (default : PacketInfo))).packets
        = (List.replicate 10001 (default : PacketInfo)).drop 1 :=
  ⟨by rw [List.length_replicate]; rfl,
   claim_C1_packet_store_push_bounded.2.1 _ 1 (by rw [List.length_replicate]; rfl)⟩

/-- One step of the rolling-history update: append the new sample and pop
the oldest once the length would exceed `MAX_HISTORY`. -/
theorem histStep (h : List ℚ) (r : ℚ) :
    (h.length < MAX_HISTORY →
      (if MAX_HISTORY < (h ++ [r]).length then (h ++ [r]).tail else h ++ [r]) = h ++ [r])
    ∧ (h.length = MAX_HISTORY →
      (if MAX_HISTORY < (h ++ [r]).length then (h ++ [r]).tail else h ++ [r]) = h.tail ++ [r]) := by
  constructor
  · intro hlen
    have hc : ¬ MAX_HISTORY < (h ++ [r]).length := by
      simp only [List.length_append, List.length_singleton]
      omega
    rw [if_neg hc]
  · intro hlen
    have hne : h ≠ [] := by
      intro hnil
      rw [hnil] at hlen
      simp [MAX_HISTORY] at hlen
    obtain ⟨a, t, ht⟩ := List.exists_cons_of_ne_nil hne
    have hc : MAX_HISTORY < (h ++ [r]).length := by
      simp only [List.length_append, List.length_singleton]
      omega
    rw [if_pos hc, ht]
    rfl

/-- C8.  `update_rates`: a call strictly less than one second after the
last rate computation leaves the whole state unchanged; a call with at
least one second elapsed sets each rate to the delta of the corresponding
cumulative total over the elapsed time, appends exactly one sample (the
new rate) to each rolling history (dropping the oldest sample once the
length would exceed 60), and latches the last-sample counters and the
update time. -/
theorem claim_C8_update_rates_window (s : PacketStore) (now : ℚ) :
    (now - s.stats.last_rate_update < 1 → s.update_rates now = s)
    ∧ (1 ≤ now - s.stats.last_rate_update →
        (s.update_rates now).stats.packets_per_second
            = ((s.stats.packets_received - s.stats.last_packets : ℕ) : ℚ)
                / (now - s.stats.last_rate_update)
        ∧ (s.update_rates now).stats.bytes_per_second
            = ((s.stats.bytes_received - s.stats.last_bytes : ℕ) : ℚ)
                / (now - s.stats.last_rate_update)
        ∧ (s.stats.pps_history.length < MAX_HISTORY →
            (s.update_rates now).stats.pps_history
              = s.stats.pps_history
                  ++ [((s.stats.packets_received - s.stats.last_packets : ℕ) : ℚ)
                        / (now - s.stats.last_rate_update)])
        ∧ (s.stats.pps_history.length = MAX_HISTORY →
            (s.update_rates now).stats.pps_history
              = s.stats.pps_history.tail
                  ++ [((s.stats.packets_received - s.stats.last_packets : ℕ) : ℚ)
                        / (now - s.stats.last_rate_update)])
        ∧ (s.stats.bps_history.length < MAX_HISTORY →
            (s.update_rates now).stats.bps_history
              = s.stats.bps_history
                  ++ [((s.stats.bytes_received - s.stats.last_bytes : ℕ) : ℚ)
                        / (now - s.stats.last_rate_update)])
        ∧ (s.stats.bps_history.length = MAX_HISTORY →
            (s.update_rates now).stats.bps_history
              = s.stats.bps_history.tail
                  ++ [((s.stats.bytes_received - s.stats.last_bytes : ℕ) : ℚ)
                        / (now - s.stats.last_rate_update)])
        ∧ (s.update_rates now).stats.last_packets = s.stats.packets_received
        ∧ (s.update_rates now).stats.last_bytes = s.stats.bytes_received
        ∧ (s.update_rates now).stats.last_rate_update = now) := by
  constructor
  · intro hlt
    have hc : ¬ (1 ≤ now - s.stats.last_rate_update) := by linarith
    simp only [PacketStore.update_rates]
    rw [if_neg hc]
  · intro hge
    simp only [PacketStore.update_rates]
    rw [if_pos hge]
    refine ⟨rfl, rfl, ?_, ?_, ?_, ?_, rfl, rfl, rfl⟩
    · intro hlen
      exact (histStep s.stats.pps_history _).1 hlen
    · intro hlen
      exact (histStep s.stats.pps_history _).2 hlen
    · intro hlen
      exact (histStep s.stats.bps_history _).1 hlen
    · intro hlen
      exact (histStep s.stats.bps_history _).2 hlen

/-- Concrete store used to witness C8. -/
def rateWitnessStore : PacketStore :=
  { packets := [], stats := { packets_received := 1 }, selected_index := 0 }

/-- Witness for C8 at a concrete input: two seconds elapsed, so the call
computes and latches the update time. -/
theorem claim_C8_witness :
    (1 : ℚ) ≤ (2 : ℚ) - rateWitnessStore.stats.last_rate_update
    ∧ (rateWitnessStore.update_rates 2).stats.last_rate_update = 2 :=
  ⟨by norm_num [rateWitnessStore],
   ((claim_C8_update_rates_window rateWitnessStore 2).2
      (by norm_num [rateWitnessStore])).2.2.2.2.2.2.2.2⟩

theorem take_append_take {α : Type} (x y : List α) (n : Nat) :
    (x ++ y.take n).take n = (x ++ y).take n := by
  rw [List.take_append_eq_append_take, List.take_append_eq_append_take, List.take_take]
  have : min (n - x.length) n = n - x.length := Nat.min_eq_left (Nat.sub_le n x.length)
  rw [this]

theorem add_alert_alerts {s : WatchlistAlerts} (a : Alert)
    (hs : s.alerts.length ≤ MAX_ALERTS) :
    (s.add_alert a).alerts = (a :: s.alerts).take MAX_ALERTS := by
  simp only [WatchlistAlerts.add_alert]
  rcases Nat.lt_or_ge s.alerts.length MAX_ALERTS with hlt | hge
  · have hc : ¬ MAX_ALERTS < (a :: s.alerts).length := by
      simp only [List.length_cons]
      omega
    rw [if_neg hc, List.take_of_length_le]
    simp only [List.length_cons]
    omega
  · have heq : s.alerts.length = MAX_ALERTS := Nat.le_antisymm hs hge
    have hc : MAX_ALERTS < (a :: s.alerts).length := by
      simp only [List.length_cons]
      omega
    rw [if_pos hc, List.dropLast_eq_take]
    congr 1

theorem addAll_alerts :
    ∀ (as : List Alert) (s : WatchlistAlerts), s.alerts.length ≤ MAX_ALERTS →
      (s.addAll as).alerts = (as.reverse ++ s.alerts).take MAX_ALERTS := by
  intro as
  induction as with
  | nil =>
    intro s hs
    simp only [WatchlistAlerts.addAll, List.foldl_nil, List.reverse_nil, List.nil_append]
    rw [List.take_of_length_le hs]
  | cons a as' ih =>
    intro s hs
    have hstep : s.addAll (a :: as') = (s.add_alert a).addAll as' := rfl
    have hone := add_alert_alerts (s := s) a hs
    have hlen : (s.add_alert a).alerts.length ≤ MAX_ALERTS := by
      rw [hone]
      simp only [List.length_take]
      omega
    rw [hstep, ih _ hlen, hone]
    rw [take_append_take]
    congr 1
    rw [List.reverse_cons, List.append_assoc]
    rfl

/-- The freshly constructed watchlist alert state. -/
def emptyAlerts : WatchlistAlerts := {}

/-- C9.  Alert sequence: each alert is pushed to the front of the
most-recent-first sequence, which never exceeds the cap of 100 (the
oldest entry is dropped beyond the cap), so pushing `cap + 1` alerts
retains exactly the `cap` most recent ones in most-recent-first order;
and after alerts have been added the new-alerts flag reads true exactly
once, then false on every later read until the next add (reading never
changes the stored alerts). -/
theorem claim_C9_alert_sequence :
    (∀ (s : WatchlistAlerts) (a : Alert), s.alerts.length ≤ MAX_ALERTS →
        (s.add_alert a).alerts = (a :: s.alerts).take MAX_ALERTS
        ∧ (s.add_alert a).alerts.length ≤ MAX_ALERTS)
    ∧ (∀ as : List Alert, as.length = MAX_ALERTS + 1 →
        (emptyAlerts.addAll as).alerts = as.reverse.take MAX_ALERTS)
    ∧ (∀ (s : WatchlistAlerts) (a : Alert),
        (s.add_alert a).has_new_alerts_ = true
        ∧ ((s.add_alert a).has_new_alerts).1 = true
        ∧ ((((s.add_alert a).has_new_alerts).2).has_new_alerts).1 = false)
    ∧ (∀ s : WatchlistAlerts,
        (s.has_new_alerts).2.alerts = s.alerts
        ∧ (((s.has_new_alerts).2).has_new_alerts).1 = false) := by
  refine ⟨?_, ?_, ?_, ?_⟩
  · intro s a hs
    refine ⟨add_alert_alerts a hs, ?_⟩
    rw [add_alert_alerts a hs]
    simp only [List.length_take]
    omega
  · intro as _
    have h0 : emptyAlerts.alerts.length ≤ MAX_ALERTS := by
      simp [emptyAlerts, MAX_ALERTS]
    rw [addAll_alerts as emptyAlerts h0]
    have : emptyAlerts.alerts = [] := rfl
    rw [this, List.append_nil]
  · intro s a
    exact ⟨rfl, rfl, rfl⟩
  · intro s
    exact ⟨rfl, rfl⟩

/-- Witness for C9 at a concrete input: 101 added alerts keep the 100
most recent. -/
theorem claim_C9_witness :
    (List.replicate 101 (default : Alert)).length = MAX_ALERTS + 1
    ∧ (emptyAlerts.addAll (List.replicate 101 (default : Alert))).alerts
        = (List.replicate 101 (default : Alert)).reverse.take MAX_ALERTS :=
  ⟨by rw [List.length_replicate]; rfl,
   claim_C9_alert_sequence.2.1 _ (by rw [List.length_replicate]; rfl)⟩

/-- Per-character step of `Watchlist::wildcard_to_regex` (watchlist.cpp):
`*` becomes `.*`, `?` becomes `.`, regex metacharacters are escaped,
anything else is copied. -/
def wlRegexChunk (c : Char) : List Char :=
  if c = '*' then ['.', '*']
  else if c = '?' then ['.']
  else if c = '.' ∨ c = '+' ∨ c = '^' ∨ c = '$' ∨ c = '(' ∨ c = ')' ∨ c = '['
      ∨ c = ']' ∨ c = '\x7b' ∨ c = '\x7d' ∨ c = '|' ∨ c = '\\' then ['\\', c]
  else [c]

/-- `Watchlist::wildcard_to_regex` (watchlist.cpp): anchor with `^`,
translate each character, anchor with `$`. -/
def Watchlist.wildcard_to_regex (pattern : String) : String :=
  ⟨'^' :: (pattern.data.map wlRegexChunk).flatten ++ ['$']⟩

/-- Per-character step of `DescriptionDatabase::wildcard_to_regex`
(descriptions.cpp) — independently implemented with the same cases. -/
def ddRegexChunk (c : Char) : List Char :=
  if c = '*' then ['.', '*']
  else if c = '?' then ['.']
  else if c = '.' ∨ c = '+' ∨ c = '^' ∨ c = '$' ∨ c = '(' ∨ c = ')' ∨ c = '['
      ∨ c = ']' ∨ c = '\x7b' ∨ c = '\x7d' ∨ c = '|' ∨ c = '\\' then ['\\', c]
  else [c]

/-- `DescriptionDatabase::wildcard_to_regex` (descriptions.cpp). -/
def DescriptionDatabase.wildcard_to_regex (pattern : String) : String :=
  ⟨'^' :: (pattern.data.map ddRegexChunk).flatten ++ ['$']⟩

/-- Atom of the anchored regex fragment produced by the wildcard
translators: `.` or a literal character. -/
inductive RAtom where
  | anyChar : RAtom
  | lit : Char → RAtom
deriving Repr, DecidableEq

/-- One matching element: an atom, possibly starred. -/
abbrev RElem := RAtom × Bool

/-- Case-insensitive atom match (the regexes are compiled with
`std::regex::icase`). -/
def amatch (a : RAtom) (c : Char) : Bool :=
  match a with
  | .anyChar => true
  | .lit x => asciiLower x = asciiLower c

/-- Parse the body (between the `^` and `$` anchors) of a regex in the
fragment: escaped literals, `.`, and postfix `*`.  Patterns using any
other metacharacter are outside the fragment and fail to compile. -/
def parseRegexBody (fuel : Nat) (cs : List Char) : Option (List RElem) :=
  match fuel, cs with
  | 0, _ => none
  | _ + 1, [] => some []
  | fuel + 1, c :: rest =>
    let atomRest : Option (RAtom × List Char) :=
      if c = '\\' then
        match rest with
        | [] => none
        | e :: rest' => some (RAtom.lit e, rest')
      else if c = '.' then some (RAtom.anyChar, rest)
      else if c = '*' ∨ c = '?' ∨ c = '+' ∨ c = '^' ∨ c = '$' ∨ c = '(' ∨ c = ')'
          ∨ c = '[' ∨ c = ']' ∨ c = '\x7b' ∨ c = '\x7d' ∨ c = '|' then none
      else some (RAtom.lit c, rest)
    match atomRest with
    | none => none
    | some (a, rest1) =>
      match rest1 with
      | '*' :: rest2 => (parseRegexBody fuel rest2).map (fun es => (a, true) :: es)
      | _ => (parseRegexBody fuel rest1).map (fun es => (a, false) :: es)

/-- Compile a regex string of the anchored fragment (`std::regex`
construction restricted to the patterns the wildcard translators emit;
anything else counts as a failed compile). -/
def compileRegex (pattern : String) : Option (List RElem) :=
  let cs := pattern.data
  if cs.head? = some '^' ∧ cs.getLast? = some '$' then
    parseRegexBody ((cs.drop 1).dropLast.length + 1) ((cs.drop 1).dropLast)
  else none

/-- Backtracking full-string matcher for the fragment (the semantics of
`std::regex_match` on compiled fragment patterns).  Each recursive call
strictly decreases `|re| + |s|`, so fuel `|re| + |s| + 1` never runs out. -/
def rmatch (fuel : Nat) (re : List RElem) (s : List Char) : Bool :=
  match fuel, re, s with
  | 0, _, _ => false
  | _ + 1, [], [] => true
  | _ + 1, [], _ :: _ => false
  | _ + 1, (_, false) :: _, [] => false
  | fuel + 1, (a, false) :: rs, c :: s' => amatch a c && rmatch fuel rs s'
  | fuel + 1, (a, true) :: rs, s =>
      rmatch fuel rs s
        || (match s with
            | [] => false
            | c :: s' => amatch a c && rmatch fuel ((a, true) :: rs) s')

/-- `std::regex_match` of a whole string against a compiled fragment. -/
def regexMatch (re : List RElem) (s : List Char) : Bool :=
  rmatch (re.length + s.length + 1) re s

/-- ASCII decimal digit test. -/
def isDigitChar (c : Char) : Bool := decide ('0' ≤ c ∧ c ≤ '9')

/-- Value of a decimal digit character. -/
def digitVal (c : Char) : Nat := c.toNat - '0'.toNat

/-- One dotted-quad component as accepted by `inet_pton(AF_INET, ...)`:
one to three decimal digits, no leading zero, value at most 255. -/
def parseOctet (cs : List Char) : Option Nat :=
  if cs = [] then none
  else if ¬ cs.all isDigitChar then none
  else if 1 < cs.length ∧ cs.head? = some '0' then none
  else
    let v := cs.foldl (fun acc c => acc * 10 + digitVal c) 0
    if v ≤ 255 then some v else none

/-- Parse every dotted-quad component (the component loop of
`inet_pton`). -/
def parseOctets : List (List Char) → Option (List Nat)
  | [] => some []
  | g :: gs =>
    match parseOctet g, parseOctets gs with
    | some v, some vs => some (v :: vs)
    | _, _ => none

/-- `inet_pton(AF_INET, s)` followed by `ntohl`: the parsed IPv4 address
as its numeric (host byte order) value, or `none` when `s` is not a
strict dotted quad. -/
def inet_pton4 (s : String) : Option Nat :=
  match parseOctets (s.data.splitOn '.') with
  | some [a, b, c, d] => some (((a * 256 + b) * 256 + c) * 256 + d)
  | _ => none

/-- `WatchlistEntry::parse_ip_addr`: parse, returning 0 on failure. -/
def parse_ip_addr (ip : String) : Nat := (inet_pton4 ip).getD 0

/-- `WatchlistEntry::MatchType`. -/
inductive MatchType where
  | EXACT
  | WILDCARD
  | REGEX
  | IP
  | CIDR
deriving Repr, DecidableEq

/-- `WatchlistEntry` (watchlist.hpp): the compiled `std::regex` is kept
as the compiled fragment. -/
structure WatchlistEntry where
  type : MatchType := .EXACT
  pattern : String := ""
  label : String := ""
  ip_addr : Nat := 0
  netmask : Nat := 0xFFFFFFFF
  compiled_regex : Option (List RElem) := none
deriving Repr, DecidableEq

/-- `std::string::find(char)`: index of the first occurrence. -/
def strFindChar (c : Char) : List Char → Option Nat
  | [] => none
  | x :: xs => if x = c then some 0 else (strFindChar c xs).map (· + 1)

/-- `WatchlistEntry::matches_hostname` (watchlist.cpp). -/
def WatchlistEntry.matches_hostname (e : WatchlistEntry) (hostname : String) : Bool :=
  if hostname = "" then false
  else
    let lower_host := lowerStr hostname
    match e.type with
    | .EXACT => lower_host = lowerStr e.pattern
    | .WILDCARD | .REGEX =>
      match e.compiled_regex with
      | none => false
      | some re => regexMatch re lower_host.data
    | .IP | .CIDR => false

/-- `WatchlistEntry::matches_ip` (watchlist.cpp). -/
def WatchlistEntry.matches_ip (e : WatchlistEntry) (ip : String) : Bool :=
  if ip = "" then false
  else
    match e.type with
    | .EXACT => ip = e.pattern
    | .IP =>
      let check_ip := parse_ip_addr ip
      check_ip ≠ 0 ∧ check_ip = e.ip_addr
    | .CIDR =>
      let check_ip := parse_ip_addr ip
      if check_ip = 0 then false
      else (check_ip &&& e.netmask) = (e.ip_addr &&& e.netmask)
    | .WILDCARD | .REGEX =>
      match e.compiled_regex with
      | none => false
      | some re => regexMatch re ip.data

/-- `WatchlistEntry::matches` (watchlist.cpp): hostname first, then
source address, then destination address. -/
def WatchlistEntry.matches (e : WatchlistEntry) (pkt : PacketInfo) : Bool :=
  (pkt.hostname ≠ "" && e.matches_hostname pkt.hostname)
  || (pkt.src_ip ≠ "" && e.matches_ip pkt.src_ip)
  || (pkt.dst_ip ≠ "" && e.matches_ip pkt.dst_ip)

/-- Space-or-tab test used by the field trimmer (`" \t"`). -/
def isSpaceTab (c : Char) : Bool := c = ' ' ∨ c = '\t'

/-- The `trim` lambda of `from_fields`: strip leading and trailing
spaces and tabs (clearing an all-whitespace string). -/
def trimField (s : String) : String :=
  ⟨((s.data.dropWhile isSpaceTab).reverse.dropWhile isSpaceTab).reverse⟩

/-- Whitespace class skipped by `std::stoi`. -/
def isCppSpace (c : Char) : Bool :=
  c = ' ' ∨ c = '\t' ∨ c = '\n' ∨ c = '\x0b' ∨ c = '\x0c' ∨ c = '\r'

/-- `std::stoi`: skip whitespace, optional sign, at least one digit
(trailing non-digits ignored); `none` models the thrown
`invalid_argument`/`out_of_range` exceptions. -/
def stoiModel (s : String) : Option Int :=
  let cs := s.data.dropWhile isCppSpace
  let signRest : Int × List Char :=
    match cs with
    | '-' :: rest => (-1, rest)
    | '+' :: rest => (1, rest)
    | _ => (1, cs)
  let digits := signRest.2.takeWhile isDigitChar
  if digits = [] then none
  else
    let v : Nat := digits.foldl (fun acc c => acc * 10 + digitVal c) 0
    let r : Int := signRest.1 * v
    if r < -2147483648 ∨ 2147483647 < r then none else some r

/-- `WatchlistEntry::from_fields` (watchlist.cpp). -/
def WatchlistEntry.from_fields (fields : List String) : Option WatchlistEntry :=
  match fields with
  | type_str0 :: pat0 :: label0 :: _ =>
    let type_str := lowerStr (trimField type_str0)
    let pat := trimField pat0
    let label := trimField label0
    if pat = "" then none
    else if type_str = "exact" then
      some { type := .EXACT, pattern := pat, label := label }
    else if type_str = "wildcard" then
      match compileRegex (Watchlist.wildcard_to_regex pat) with
      | none => none
      | some re =>
        some { type := .WILDCARD, pattern := pat, label := label, compiled_regex := some re }
    else if type_str = "regex" then
      match compileRegex pat with
      | none => none
      | some re =>
        some { type := .REGEX, pattern := pat, label := label, compiled_regex := some re }
    else if type_str = "ip" then
      let a := parse_ip_addr pat
      if a = 0 then none
      else some { type := .IP, pattern := pat, label := label, ip_addr := a }
    else if type_str = "cidr" then
      match strFindChar '/' pat.data with
      | none => none
      | some slash_pos =>
        let ip_part : String := ⟨pat.data.take slash_pos⟩
        let pfx_part : String := ⟨pat.data.drop (slash_pos + 1)⟩
        let a := parse_ip_addr ip_part
        if a = 0 then none
        else
          match stoiModel pfx_part with
          | none => none
          | some pfxv =>
            if pfxv < 0 ∨ 32 < pfxv then none
            else
              let nm : Nat :=
                if pfxv = 0 then 0 else (0xFFFFFFFF <<< (32 - pfxv.toNat)) % 4294967296
              some { type := .CIDR, pattern := pat, label := label, ip_addr := a, netmask := nm }
    else none
  | _ => none

theorem parseOctet_le {g : List Char} {v : Nat} (h : parseOctet g = some v) : v ≤ 255 := by
  unfold parseOctet at h
  split_ifs at h with h1 h2 h3
  simp only at h
  split_ifs at h with h4
  cases h
  exact h4

theorem parseOctets_le :
    ∀ {gs : List (List Char)} {vs : List Nat}, parseOctets gs = some vs →
      ∀ x ∈ vs, x ≤ 255 := by
  intro gs
  induction gs with
  | nil =>
    intro vs h x hx
    simp only [parseOctets] at h
    cases h
    simp at hx
  | cons g gs' ih =>
    intro vs h x hx
    simp only [parseOctets] at h
    rcases ho : parseOctet g with _ | v
    · rw [ho] at h; cases h
    · rw [ho] at h
      rcases hos : parseOctets gs' with _ | vs'
      · rw [hos] at h; cases h
      · rw [hos] at h
        cases h
        rcases List.mem_cons.mp hx with hx1 | hx2
        · exact hx1 ▸ parseOctet_le ho
        · exact ih hos x hx2

theorem inet_pton4_lt {s : String} {a : Nat} (h : inet_pton4 s = some a) :
    a < 4294967296 := by
  unfold inet_pton4 at h
  rcases hm : parseOctets (s.data.splitOn '.') with _ | vs
  · rw [hm] at h; cases h
  · rw [hm] at h
    have hb := parseOctets_le hm
    match vs, h with
    | [x1, x2, x3, x4], h =>
      cases h
      have b1 : x1 ≤ 255 := hb x1 (by simp)
      have b2 : x2 ≤ 255 := hb x2 (by simp)
      have b3 : x3 ≤ 255 := hb x3 (by simp)
      have b4 : x4 ≤ 255 := hb x4 (by simp)
      omega

theorem parse_ip_addr_lt (s : String) : parse_ip_addr s < 4294967296 := by
  unfold parse_ip_addr
  rcases hp : inet_pton4 s with _ | a
  · simp
  · simpa using inet_pton4_lt hp

theorem matches_ip_cidr (e : WatchlistEntry) (he : e.type = .CIDR) (cand : String) :
    e.matches_ip cand
      = (decide (parse_ip_addr cand ≠ 0)
          && decide ((parse_ip_addr cand &&& e.netmask) = (e.ip_addr &&& e.netmask))) := by
  unfold WatchlistEntry.matches_ip
  rw [he]
  by_cases hc : cand = ""
  · subst hc
    rw [if_pos rfl]
    have h0 : parse_ip_addr "" = 0 := by decide
    simp [h0]
  · rw [if_neg hc]
    by_cases hz : parse_ip_addr cand = 0
    · simp [hz]
    · simp [hz]

/-- The entry loaded from `cidr:10.0.0.0/8:watch`. -/
def cidr8Entry : WatchlistEntry :=
  (WatchlistEntry.from_fields ["cidr", "10.0.0.0/8", "watch"]).getD {}

/-- The entry loaded from `cidr:10.0.0.1/32:watch`. -/
def cidr32Entry : WatchlistEntry :=
  (WatchlistEntry.from_fields ["cidr", "10.0.0.1/32", "watch"]).getD {}

/-- The entry loaded from `cidr:10.0.0.0/0:watch`. -/
def cidr0Entry : WatchlistEntry :=
  (WatchlistEntry.from_fields ["cidr", "10.0.0.0/0", "watch"]).getD {}

/-- C4 counterexample.  The claim's unconditional criterion "a candidate
matches iff `(candidate & mask) == (network & mask)`" (and hence "a `/0`
entry matches every candidate") is false on the code: for the `/0` entry
the candidate `0.0.0.0` satisfies the mask equation, yet `matches_ip`
rejects it because the parsed candidate value 0 is treated as a parse
failure. -/
theorem claim_C4_counterexample :
    WatchlistEntry.from_fields ["cidr", "10.0.0.0/0", "watch"] = some cidr0Entry
    ∧ (parse_ip_addr "0.0.0.0" &&& cidr0Entry.netmask)
        = (cidr0Entry.ip_addr &&& cidr0Entry.netmask)
    ∧ cidr0Entry.matches_ip "0.0.0.0" = false := by
  refine ⟨by decide, by decide, by decide⟩

/-- C4 (amended).  Network-range matcher: (1) an entry
`10.0.0.0/prefixString` is accepted exactly when the prefix parses to a
value between 0 and 32 (stated for any suffix string that the field
trimmer leaves unchanged and `stoi` parses); (2) a candidate matches a
CIDR entry iff it parses to a **nonzero** address whose masked value
equals the masked network; (3) the constructed mask has `prefixLength`
leading one bits; (4) for `10.0.0.0/8` the candidates `10.0.0.1` and
`10.255.255.255` match while `11.0.0.1` and `192.168.1.1` do not; (5) a
`/32` entry matches exactly the candidates parsing to the entry address;
(6) a `/0` entry matches every candidate that parses to a nonzero
address. -/
theorem claim_C4_network_range_matcher :
    (∀ (s : String) (v : Int),
        trimField ("10.0.0.0/" ++ s) = "10.0.0.0/" ++ s →
        stoiModel s = some v →
        (WatchlistEntry.from_fields ["cidr", "10.0.0.0/" ++ s, "watch"]).isSome
          = decide (0 ≤ v ∧ v ≤ 32))
    ∧ (∀ e : WatchlistEntry, e.type = .CIDR → ∀ cand : String,
        e.matches_ip cand
          = (decide (parse_ip_addr cand ≠ 0)
              && decide ((parse_ip_addr cand &&& e.netmask) = (e.ip_addr &&& e.netmask))))
    ∧ (∀ v : Nat, v ≤ 32 →
        (if v = 0 then 0 else ((0xFFFFFFFF : Nat) <<< (32 - v)) % 4294967296)
          = 2 ^ 32 - 2 ^ (32 - v))
    ∧ (WatchlistEntry.from_fields ["cidr", "10.0.0.0/8", "watch"] = some cidr8Entry
        ∧ cidr8Entry.matches_ip "10.0.0.1" = true
        ∧ cidr8Entry.matches_ip "10.255.255.255" = true
        ∧ cidr8Entry.matches_ip "11.0.0.1" = false
        ∧ cidr8Entry.matches_ip "192.168.1.1" = false)
    ∧ (∀ cand : String,
        cidr32Entry.matches_ip cand = true ↔ parse_ip_addr cand = 167772161)
    ∧ (∀ cand : String, parse_ip_addr cand ≠ 0 → cidr0Entry.matches_ip cand = true) := by
  refine ⟨?_, matches_ip_cidr, ?_, ⟨by decide, by decide, by decide, by decide, by decide⟩,
    ?_, ?_⟩
  · intro s v htrim hstoi
    obtain ⟨d⟩ := s
    have hdata : ("10.0.0.0/" ++ String.mk d) = String.mk ("10.0.0.0/".data ++ d) := rfl
    simp only [hdata] at htrim hstoi ⊢
    simp only [WatchlistEntry.from_fields, htrim]
    have hfind : strFindChar '/' (String.mk ("10.0.0.0/".data ++ d)).data = some 8 := by
      simp [strFindChar]
    rw [hfind]
    have hne : ¬ (String.mk ("10.0.0.0/".data ++ d) = "") := by
      intro hcon
      have h' := congrArg String.data hcon
      simp at h'
    have htype : lowerStr (trimField "cidr") = "cidr" := by decide
    have hipart : String.mk (List.take 8 ("10.0.0.0/".data ++ d)) = "10.0.0.0" := by
      have h' : List.take 8 ("10.0.0.0/".data ++ d) = "10.0.0.0".data := by simp
      rw [h']
    have hpfx : String.mk (List.drop 9 ("10.0.0.0/".data ++ d)) = String.mk d := by
      have h' : List.drop 9 ("10.0.0.0/".data ++ d) = d := by simp
      rw [h']
    have hip : ¬ (parse_ip_addr "10.0.0.0" = 0) := by decide
    simp only [if_neg hne, htype, hipart, hpfx, hstoi, if_neg hip]
    norm_num
    by_cases hv : v < 0 ∨ 32 < v
    · rw [if_pos hv]
      have hv' : ¬ (0 ≤ v ∧ v ≤ 32) := by omega
      simp [hv']
      omega
    · rw [if_neg hv]
      have hv' : (0 ≤ v ∧ v ≤ 32) := by omega
      simp [hv']
  · intro v hv
    by_cases h0 : v = 0
    · subst h0
      norm_num
    · rw [if_neg h0, Nat.shiftLeft_eq]
      have hk : 32 - v ≤ 31 := by omega
      have h2k : (2:Nat) ^ (32 - v) ≤ 2 ^ 31 := Nat.pow_le_pow_right (by norm_num) hk
      have h31 : (2:Nat) ^ 31 = 2147483648 := by norm_num
      have h32 : (2:Nat) ^ 32 = 4294967296 := by norm_num
      have h1 : (1:Nat) ≤ 2 ^ (32 - v) := Nat.one_le_two_pow
      rw [h32]
      rw [h31] at h2k
      omega
  · intro cand
    rw [matches_ip_cidr cidr32Entry (by decide) cand]
    have hm : cidr32Entry.netmask = 4294967295 := by decide
    have ha : cidr32Entry.ip_addr = 167772161 := by decide
    rw [hm, ha]
    have h1 : parse_ip_addr cand &&& 4294967295 = parse_ip_addr cand := by
      have hlt := parse_ip_addr_lt cand
      have h2 : (4294967295 : Nat) = 2 ^ 32 - 1 := by norm_num
      rw [h2, Nat.and_pow_two_sub_one_eq_mod, Nat.mod_eq_of_lt]
      have h3 : (2:Nat) ^ 32 = 4294967296 := by norm_num
      omega
    rw [h1]
    have h3 : (167772161 : Nat) &&& 4294967295 = 167772161 := by decide
    rw [h3]
    simp only [Bool.and_eq_true, decide_eq_true_eq]
    constructor
    · intro ⟨_, h⟩
      exact h
    · intro h
      exact ⟨by omega, h⟩
  · intro cand h
    rw [matches_ip_cidr cidr0Entry (by decide) cand]
    have hm : cidr0Entry.netmask = 0 := by decide
    rw [hm]
    simp [h, Nat.and_zero]

/-- Witness for C4 at a concrete input: the suffix `8` is trim-neutral,
parses to 8, and the entry `10.0.0.0/8` is accepted. -/
theorem claim_C4_witness :
    trimField ("10.0.0.0/" ++ "8") = "10.0.0.0/" ++ "8"
    ∧ stoiModel "8" = some 8
    ∧ (WatchlistEntry.from_fields ["cidr", "10.0.0.0/" ++ "8", "watch"]).isSome
        = decide ((0:Int) ≤ 8 ∧ (8:Int) ≤ 32) :=
  ⟨by decide, by decide,
   claim_C4_network_range_matcher.1 "8" 8 (by decide) (by decide)⟩

/-- The entry loaded from `wildcard:*.example.com:watch`. -/
def wcExampleEntry : WatchlistEntry :=
  (WatchlistEntry.from_fields ["wildcard", "*.example.com", "watch"]).getD {}

/-- C5.  Wildcard matcher: the translation maps `*` to `.*`, `?` to `.`,
escapes the other metacharacters and anchors both ends; compiled
case-insensitively, `*.example.com` matches `www.example.com`,
`a.b.example.com` and `WWW.Example.COM`, but matches neither the bare
`example.com` nor `example.com.evil.com`. -/
theorem claim_C5_wildcard_matcher :
    Watchlist.wildcard_to_regex "*.example.com" = "^.*\\.example\\.com$"
    ∧ Watchlist.wildcard_to_regex "w?d[1]+x" = "^w.d\\[1\\]\\+x$"
    ∧ WatchlistEntry.from_fields ["wildcard", "*.example.com", "watch"] = some wcExampleEntry
    ∧ wcExampleEntry.matches_hostname "www.example.com" = true
    ∧ wcExampleEntry.matches_hostname "a.b.example.com" = true
    ∧ wcExampleEntry.matches_hostname "WWW.Example.COM" = true
    ∧ wcExampleEntry.matches_hostname "example.com" = false
    ∧ wcExampleEntry.matches_hostname "example.com.evil.com" = false := by
  refine ⟨by decide, by decide, by decide, by decide, by decide, by decide, by decide,
    by decide⟩

/-- The entry loaded from `wildcard:*.domain.com:watch`. -/
def wcDomainEntry : WatchlistEntry :=
  (WatchlistEntry.from_fields ["wildcard", "*.domain.com", "watch"]).getD {}

/-- C6 counterexample.  The translation maps `*` to `.*` — zero or more
characters, not one or more: the compiled translation of the bare
pattern `*` matches the empty string, and the entry `*.domain.com`
matches the candidate `.domain.com`, whose subdomain prefix is empty. -/
theorem claim_C6_counterexample :
    Watchlist.wildcard_to_regex "*" = "^.*$"
    ∧ regexMatch ((compileRegex (Watchlist.wildcard_to_regex "*")).getD []) [] = true
    ∧ WatchlistEntry.from_fields ["wildcard", "*.domain.com", "watch"] = some wcDomainEntry
    ∧ wcDomainEntry.matches_hostname ".domain.com" = true := by
  refine ⟨by decide, by decide, by decide, by decide⟩

/-- C6 (amended).  The wildcard translation anchors the pattern at both
ends and maps each `*` to `.*` — zero or more characters.  A pattern
`*.domain.com` therefore still fails to match the bare `domain.com`
(the literal dot must be consumed), but it accepts an empty subdomain
prefix such as in `.domain.com`. -/
theorem claim_C6_star_zero_or_more :
    (∀ p : String, (Watchlist.wildcard_to_regex p).data.head? = some '^'
        ∧ (Watchlist.wildcard_to_regex p).data.getLast? = some '$')
    ∧ Watchlist.wildcard_to_regex "*" = "^.*$"
    ∧ regexMatch ((compileRegex (Watchlist.wildcard_to_regex "*")).getD []) [] = true
    ∧ WatchlistEntry.from_fields ["wildcard", "*.domain.com", "watch"] = some wcDomainEntry
    ∧ wcDomainEntry.matches_hostname "domain.com" = false
    ∧ wcDomainEntry.matches_hostname ".domain.com" = true
    ∧ wcDomainEntry.matches_hostname "a.domain.com" = true := by
  refine ⟨?_, by decide, by decide, by decide, by decide, by decide, by decide⟩
  intro p
  constructor
  · rfl
  · show ('^' :: ((p.data.map wlRegexChunk).flatten ++ ['$'])).getLast? = some '$'
    rw [show '^' :: ((p.data.map wlRegexChunk).flatten ++ ['$'])
          = ('^' :: (p.data.map wlRegexChunk).flatten) ++ ['$'] from rfl]
    exact List.getLast?_concat _

/-- C10.  The two independently implemented wildcard-to-regex
translators (watchlist and description database) are extensionally
equal. -/
theorem claim_C10_wildcard_translators_agree (p : String) :
    Watchlist.wildcard_to_regex p = DescriptionDatabase.wildcard_to_regex p := by
  unfold Watchlist.wildcard_to_regex DescriptionDatabase.wildcard_to_regex
  have h : List.map wlRegexChunk p.data = List.map ddRegexChunk p.data :=
    List.map_congr_left (fun c _ => rfl)
  rw [h]

/-- `SocketKey` (process_mapper.hpp): the 5-tuple join key. -/
structure SocketKey where
  local_addr : Nat
  local_port : Nat
  remote_addr : Nat
  remote_port : Nat
  protocol : Nat
deriving Repr, DecidableEq

/-- The local/remote endpoint swap performed by `ProcessMapper::lookup`
before its second table probe. -/
def SocketKey.swap (k : SocketKey) : SocketKey :=
  { k with
    local_addr := k.remote_addr
    remote_addr := k.local_addr
    local_port := k.remote_port
    remote_port := k.local_port }

/-- `SocketEntry` (process_mapper.hpp). -/
structure SocketEntry where
  inode : Nat
  cached_at : Nat
deriving Repr, DecidableEq

/-- `ProcessInfo` (process_mapper.hpp). -/
structure ProcessInfo where
  pid : Int := 0
  name : String := ""
  cached_at : Nat := 0
deriving Repr, DecidableEq

/-- `operator[]`-style insert-or-replace on an association list (the
embedding of `std::unordered_map` assignment; map order is irrelevant to
every lookup). -/
def upsert {α β : Type} [BEq α] (m : List (α × β)) (k : α) (v : β) : List (α × β) :=
  if (m.lookup k).isSome then
    m.map (fun p => if p.1 == k then (k, v) else p)
  else m ++ [(k, v)]

/-- One parsed row of `/proc/net/tcp` or `/proc/net/udp` (endpoints in
host byte order, plus the socket inode), as produced by the row parsing
of `refresh_socket_table`. -/
structure ProcRow where
  local_addr : Nat := 0
  local_port : Nat := 0
  remote_addr : Nat := 0
  remote_port : Nat := 0
  inode : Nat := 0

/-- The external `/proc` filesystem as one refresh observes it: the
per-protocol socket-table rows, the (pid, socket inode) pairs of the
descriptor walk, and each process's comm name. -/
structure ProcEnv where
  tcpRows : List ProcRow := []
  udpRows : List ProcRow := []
  fdEntries : List (Int × Nat) := []
  commName : Int → String := fun _ => ""

/-- `ProcessMapper` state (process_mapper.hpp).  Times are nanosecond
counts of the steady clock; the zero time point is the "never populated"
sentinel (`last_socket_refresh_ = {}`); the TTL is in milliseconds. -/
structure MapperState where
  socket_table : List (SocketKey × SocketEntry) := []
  inode_to_process : List (Nat × ProcessInfo) := []
  process_name_cache : List (Int × String) := []
  cache_ttl : Nat := 500
  last_socket_refresh : Nat := 0

/-- `ProcessMapper::is_cache_valid` at time `now` (ns): false at the
sentinel, else the elapsed time truncated to milliseconds must be below
the TTL. -/
def is_cache_valid (s : MapperState) (now cached_at : Nat) : Bool :=
  if cached_at = 0 then false
  else (now - cached_at) / 1000000 < s.cache_ttl

/-- The refresh condition of `ProcessMapper::lookup` (line 33). -/
def needsRefresh (s : MapperState) (now : Nat) : Bool :=
  ! is_cache_valid s now s.last_socket_refresh

/-- `ProcessMapper::refresh_socket_table`: fold the parsed rows into the
socket table (rows with inode 0 are skipped; the table is not cleared). -/
def refresh_socket_table (rows : List ProcRow) (protocol : Nat) (now : Nat)
    (tbl : List (SocketKey × SocketEntry)) : List (SocketKey × SocketEntry) :=
  rows.foldl
    (fun t r =>
      if r.inode = 0 then t
      else upsert t ⟨r.local_addr, r.local_port, r.remote_addr, r.remote_port, protocol⟩
        ⟨r.inode, now⟩)
    tbl

/-- `ProcessMapper::get_process_name`: consult the per-pid name cache,
else read the comm name and cache it. -/
def get_process_name (env : ProcEnv) (cache : List (Int × String)) (pid : Int) :
    String × List (Int × String) :=
  match cache.lookup pid with
  | some n => (n, cache)
  | none =>
    let n := env.commName pid
    (n, upsert cache pid n)

/-- `ProcessMapper::refresh_inode_mapping`: walk the descriptor entries
and record, for every socket inode present in the socket table, the
owning process (the inode map is not cleared). -/
def refresh_inode_mapping (env : ProcEnv) (now : Nat) (s : MapperState) : MapperState :=
  env.fdEntries.foldl
    (fun st pr =>
      if st.socket_table.any (fun kv => kv.2.inode = pr.2) then
        let nc := get_process_name env st.process_name_cache pr.1
        { st with
          process_name_cache := nc.2
          inode_to_process := upsert st.inode_to_process pr.2 ⟨pr.1, nc.1, now⟩ }
      else st)
    s

/-- The refresh block run by `lookup` and `refresh`: rebuild the TCP and
UDP socket tables, then the inode mapping. -/
def refreshTables (env : ProcEnv) (now : Nat) (s : MapperState) : MapperState :=
  let s1 := { s with
    socket_table := refresh_socket_table env.tcpRows PROTO_TCP now s.socket_table }
  let s2 := { s1 with
    socket_table := refresh_socket_table env.udpRows PROTO_UDP now s1.socket_table }
  refresh_inode_mapping env now s2

/-- The socket-table stage of `lookup`: probe the key directly, then with
local/remote swapped. -/
def socketStage (tbl : List (SocketKey × SocketEntry)) (key : SocketKey) :
    Option SocketEntry :=
  match tbl.lookup key with
  | some e => some e
  | none => tbl.lookup key.swap

/-- `ProcessMapper::lookup` (process_mapper.cpp): refresh when the cache
TTL has expired, parse both addresses, probe the socket table (direct
then swapped), and resolve the found inode through the identifier map.
Returns the result together with the updated mapper state. -/
def ProcessMapper.lookup (env : ProcEnv) (s : MapperState) (now : Nat)
    (local_ip : String) (local_port : Nat) (remote_ip : String) (remote_port : Nat)
    (protocol : Nat) : Option ProcessInfo × MapperState :=
  let s' := if needsRefresh s now
    then { refreshTables env now s with last_socket_refresh := now }
    else s
  match inet_pton4 local_ip with
  | none => (none, s')
  | some la =>
    match inet_pton4 remote_ip with
    | none => (none, s')
    | some ra =>
      let key : SocketKey := ⟨la, local_port, ra, remote_port, protocol⟩
      match socketStage s'.socket_table key with
      | none => (none, s')
      | some e =>
        match s'.inode_to_process.lookup e.inode with
        | none => (none, s')
        | some info => (some info, s')

/-- The freshly constructed process mapper. -/
def emptyMapper : MapperState := {}

theorem lookup_state (env : ProcEnv) (s : MapperState) (now : Nat) (lip : String)
    (lp : Nat) (rip : String) (rp : Nat) (proto : Nat) :
    (ProcessMapper.lookup env s now lip lp rip rp proto).2
      = if needsRefresh s now
        then { refreshTables env now s with last_socket_refresh := now } else s := by
  simp only [ProcessMapper.lookup]
  rcases hla : inet_pton4 lip with _ | la
  · simp only [hla]
  · rcases hra : inet_pton4 rip with _ | ra
    · simp only [hla, hra]
    · simp only [hla, hra]
      rcases hst : socketStage
          (if needsRefresh s now
            then { refreshTables env now s with last_socket_refresh := now }
            else s).socket_table ⟨la, lp, ra, rp, proto⟩ with _ | e
      · simp only [hst]
      · simp only [hst]
        rcases hlk : List.lookup e.inode
            (if needsRefresh s now
              then { refreshTables env now s with last_socket_refresh := now }
              else s).inode_to_process with _ | info
        · simp only [hlk]
        · simp only [hlk]

theorem lookup_result (env : ProcEnv) (s : MapperState) (now : Nat) (lip : String)
    (lp : Nat) (rip : String) (rp : Nat) (proto : Nat) (la ra : Nat)
    (hla : inet_pton4 lip = some la) (hra : inet_pton4 rip = some ra) :
    (ProcessMapper.lookup env s now lip lp rip rp proto).1
      = (socketStage (if needsRefresh s now
            then { refreshTables env now s with last_socket_refresh := now }
            else s).socket_table ⟨la, lp, ra, rp, proto⟩).bind
          (fun e => (if needsRefresh s now
            then { refreshTables env now s with last_socket_refresh := now }
            else s).inode_to_process.lookup e.inode) := by
  simp only [ProcessMapper.lookup, hla, hra]
  rcases hst : socketStage
      (if needsRefresh s now
        then { refreshTables env now s with last_socket_refresh := now }
        else s).socket_table ⟨la, lp, ra, rp, proto⟩ with _ | e
  · simp only [hst, Option.bind]
  · simp only [hst, Option.some_bind]
    rcases hlk : List.lookup e.inode
        (if needsRefresh s now
          then { refreshTables env now s with last_socket_refresh := now }
          else s).inode_to_process with _ | info
    · simp only [hlk]
    · simp only [hlk]

theorem refresh_inode_mapping_ttl (env : ProcEnv) (now : Nat) (s : MapperState) :
    (refresh_inode_mapping env now s).cache_ttl = s.cache_ttl := by
  unfold refresh_inode_mapping
  generalize env.fdEntries = l
  induction l generalizing s with
  | nil => rfl
  | cons p l ih =>
    simp only [List.foldl_cons]
    rw [ih]
    by_cases hrel : s.socket_table.any (fun kv => kv.2.inode = p.2)
    · simp [hrel]
    · simp [hrel]

theorem refreshTables_ttl (env : ProcEnv) (now : Nat) (s : MapperState) :
    (refreshTables env now s).cache_ttl = s.cache_ttl := by
  unfold refreshTables
  rw [refresh_inode_mapping_ttl]

theorem ttl_once (env : ProcEnv) (s : MapperState) (lip : String)
    (lp : Nat) (rip : String) (rp : Nat) (proto : Nat) (t₁ t₂ : Nat)
    (h1 : 0 < t₁) (httl : (t₂ - t₁) / 1000000 < s.cache_ttl) :
    ¬ (needsRefresh s t₁ = true
        ∧ needsRefresh (ProcessMapper.lookup env s t₁ lip lp rip rp proto).2 t₂ = true) := by
  rintro ⟨hr1, hr2⟩
  rw [lookup_state, if_pos hr1] at hr2
  unfold needsRefresh is_cache_valid at hr2
  simp only at hr2
  rw [refreshTables_ttl] at hr2
  have hne : ¬ (t₁ = 0) := by omega
  rw [if_neg hne] at hr2
  simp only [Bool.not_eq_true'] at hr2
  rw [decide_eq_false_iff_not] at hr2
  exact hr2 httl

theorem swap_swap (k : SocketKey) : k.swap.swap = k := rfl

theorem swapped_stage_hits (s : MapperState) (la lp ra rp proto : Nat) (e : SocketEntry)
    (hfound : s.socket_table.lookup (⟨la, lp, ra, rp, proto⟩ : SocketKey) = some e) :
    (socketStage s.socket_table (SocketKey.swap ⟨la, lp, ra, rp, proto⟩)).isSome = true := by
  unfold socketStage
  rcases hdir : s.socket_table.lookup (SocketKey.swap ⟨la, lp, ra, rp, proto⟩) with _ | e'
  · simp only [hdir]
    rw [swap_swap, hfound]
    rfl
  · simp only [hdir]
    rfl

theorem swapped_lookup_eq (env : ProcEnv) (s : MapperState) (now : Nat)
    (lip : String) (lp : Nat) (rip : String) (rp : Nat) (proto : Nat) (la ra : Nat)
    (hnr : needsRefresh s now = false)
    (hla : inet_pton4 lip = some la) (hra : inet_pton4 rip = some ra) :
    (ProcessMapper.lookup env s now rip rp lip lp proto).1
      = (socketStage s.socket_table (SocketKey.swap ⟨la, lp, ra, rp, proto⟩)).bind
          (fun e' => s.inode_to_process.lookup e'.inode) := by
  have h := lookup_result env s now rip rp lip lp proto ra la hra hla
  rw [h]
  simp only [hnr, Bool.false_eq_true, if_false]
  rfl

/-- C7.  Process-attribution lookup: (1) the lookup refreshes the tables
exactly when the TTL has expired and otherwise leaves the state alone;
on the post-refresh state it parses both addresses (a parse failure
yields empty), probes the socket table with the built key and then with
local/remote swapped, and resolves the found socket identifier through
the identifier-to-process map — a miss at any stage yields the empty
result (the `Option.bind` equation); (2) two lookups whose times lie
within one TTL window (and the first at a nonzero clock) trigger at most
one refresh; (3) the default TTL is 500 ms; (4) when the unswapped tuple
is in the socket table, a lookup with local/remote swapped still reaches
a socket-table hit, and its result is the identifier-map resolution of
the found entry. -/
theorem claim_C7_process_lookup :
    (∀ (env : ProcEnv) (s : MapperState) (now : Nat) (lip : String) (lp : Nat)
        (rip : String) (rp : Nat) (proto : Nat),
      (ProcessMapper.lookup env s now lip lp rip rp proto).2
          = (if needsRefresh s now
              then { refreshTables env now s with last_socket_refresh := now } else s)
      ∧ (inet_pton4 lip = none →
          (ProcessMapper.lookup env s now lip lp rip rp proto).1 = none)
      ∧ (inet_pton4 rip = none →
          (ProcessMapper.lookup env s now lip lp rip rp proto).1 = none)
      ∧ (∀ la ra : Nat, inet_pton4 lip = some la → inet_pton4 rip = some ra →
          (ProcessMapper.lookup env s now lip lp rip rp proto).1
            = (socketStage (if needsRefresh s now
                  then { refreshTables env now s with last_socket_refresh := now }
                  else s).socket_table ⟨la, lp, ra, rp, proto⟩).bind
                (fun e => (if needsRefresh s now
                  then { refreshTables env now s with last_socket_refresh := now }
                  else s).inode_to_process.lookup e.inode)))
    ∧ (∀ (env : ProcEnv) (s : MapperState) (lip : String) (lp : Nat) (rip : String)
        (rp : Nat) (proto : Nat) (t₁ t₂ : Nat),
        0 < t₁ → (t₂ - t₁) / 1000000 < s.cache_ttl →
        ¬ (needsRefresh s t₁ = true
            ∧ needsRefresh (ProcessMapper.lookup env s t₁ lip lp rip rp proto).2 t₂ = true))
    ∧ emptyMapper.cache_ttl = 500
    ∧ (∀ (env : ProcEnv) (s : MapperState) (now : Nat) (lip : String) (lp : Nat)
        (rip : String) (rp : Nat) (proto : Nat) (la ra : Nat) (e : SocketEntry),
        needsRefresh s now = false →
        inet_pton4 lip = some la → inet_pton4 rip = some ra →
        s.socket_table.lookup (⟨la, lp, ra, rp, proto⟩ : SocketKey) = some e →
        (socketStage s.socket_table (SocketKey.swap ⟨la, lp, ra, rp, proto⟩)).isSome = true
        ∧ (ProcessMapper.lookup env s now rip rp lip lp proto).1
            = (socketStage s.socket_table (SocketKey.swap ⟨la, lp, ra, rp, proto⟩)).bind
                (fun e' => s.inode_to_process.lookup e'.inode)) := by
  refine ⟨?_, ?_, rfl, ?_⟩
  · intro env s now lip lp rip rp proto
    refine ⟨lookup_state env s now lip lp rip rp proto, ?_, ?_,
      lookup_result env s now lip lp rip rp proto⟩
    · intro hla
      simp only [ProcessMapper.lookup, hla]
    · intro hra
      rcases hla : inet_pton4 lip with _ | la
      · simp only [ProcessMapper.lookup, hla]
      · simp only [ProcessMapper.lookup, hla, hra]
  · intro env s lip lp rip rp proto t₁ t₂ h1 httl
    exact ttl_once env s lip lp rip rp proto t₁ t₂ h1 httl
  · intro env s now lip lp rip rp proto la ra e hnr hla hra hfound
    exact ⟨swapped_stage_hits s la lp ra rp proto e hfound,
      swapped_lookup_eq env s now lip lp rip rp proto la ra hnr hla hra⟩

/-- Concrete mapper state used to witness C7: one TCP socket
`10.0.0.1:80 ↔ 10.0.0.2:443` with inode 5, owned by pid 100, freshly
refreshed at time 1 ns. -/
def wMapper : MapperState :=
  { socket_table := [(⟨167772161, 80, 167772162, 443, 6⟩, ⟨5, 0⟩)]
    inode_to_process := [(5, ⟨100, "curl", 0⟩)]
    cache_ttl := 500
    last_socket_refresh := 1 }

/-- Witness for C7 at a concrete input: with the unswapped tuple in the
table, the swapped lookup reaches a socket hit and resolves it. -/
theorem claim_C7_witness :
    needsRefresh wMapper 1 = false
    ∧ inet_pton4 "10.0.0.1" = some 167772161
    ∧ inet_pton4 "10.0.0.2" = some 167772162
    ∧ wMapper.socket_table.lookup (⟨167772161, 80, 167772162, 443, 6⟩ : SocketKey)
        = some ⟨5, 0⟩
    ∧ ((socketStage wMapper.socket_table
          (SocketKey.swap ⟨167772161, 80, 167772162, 443, 6⟩)).isSome = true
        ∧ (ProcessMapper.lookup {} wMapper 1 "10.0.0.2" 443 "10.0.0.1" 80 6).1
            = (socketStage wMapper.socket_table
                (SocketKey.swap ⟨167772161, 80, 167772162, 443, 6⟩)).bind
                (fun e' => wMapper.inode_to_process.lookup e'.inode)) :=
  ⟨by decide, by decide, by decide, by decide,
   claim_C7_process_lookup.2.2.2 {} wMapper 1 "10.0.0.1" 80 "10.0.0.2" 443 6
     167772161 167772162 ⟨5, 0⟩ (by decide) (by decide) (by decide) (by decide)⟩

/-- Label-walk of `parse_dns_name` (packet.cpp).  The C loop terminates
because every iteration either performs one of at most 50 pointer jumps
or strictly advances `pos` below `len`: the measure
`(50 - jump_count) * (len + 1) + (len - pos)` strictly decreases, so the
structural fuel `51 * (len + 1) + 1` supplied by the wrapper is never
exhausted.  The result carries the accumulated name, the `jumped` flag,
the offset variable (stored by the first jump, or by a zero label before
the loop ends), and the final `pos`. -/
def dnsNameAux (d : Nat → Nat) (len : Nat) :
    Nat → Nat → Bool → Nat → Nat → List Char → List Char × Bool × Nat × Nat
  | 0, pos, jumped, off, _, name => (name, jumped, off, pos)
  | fuel + 1, pos, jumped, off, jc, name =>
    if pos < len ∧ jc < 50 then
      let label_len := byteAt d pos
      if label_len = 0 then
        (name, jumped, if jumped then off else pos + 1, pos)
      else if label_len &&& 0xC0 = 0xC0 then
        if len ≤ pos + 1 then (name, jumped, off, pos)
        else
          dnsNameAux d len fuel ((label_len &&& 0x3F) * 256 + byteAt d (pos + 1)) true
            (if jumped then off else pos + 2) (jc + 1) name
      else if len < pos + 1 + label_len then (name, jumped, off, pos)
      else
        dnsNameAux d len fuel (pos + label_len + 1) jumped off jc
          (if name.isEmpty then readChars d (pos + 1) label_len
            else name ++ '.' :: readChars d (pos + 1) label_len)
    else (name, jumped, off, pos)

/-- `parse_dns_name` (packet.cpp): the decoded name and the
caller-visible end-of-name offset.  After the loop the code assigns
`offset = pos` whenever no jump occurred (which supersedes the `pos + 1`
stored at a zero label); when a jump occurred, the offset recorded at
the first jump is kept. -/
def parse_dns_name (d : Nat → Nat) (len : Nat) (offset : Nat) : List Char × Nat :=
  let r := dnsNameAux d len (51 * (len + 1) + 1) offset false offset 0 []
  (r.1, if r.2.1 then r.2.2.1 else r.2.2.2)

/-- Modelled from the spec: the application-layer dispatch constants
(53→DNS, 80→HTTP, 443→TLS, spec section 4.1) are declared in the
application-layer header that is not among the provided sources. -/
def PORT_DNS : Nat := 53

/-- Modelled from the spec: see `PORT_DNS`. -/
def PORT_HTTP : Nat := 80

/-- Modelled from the spec: see `PORT_DNS`. -/
def PORT_HTTPS : Nat := 443

/-- Modelled from the spec: the standard 12-byte DNS header (id, flags,
qdcount, ancount, nscount, arcount) whose struct declaration is in the
application-layer header not among the provided sources; `flags` sits at
offset 2 and `qdcount` at offset 4. -/
def DNS_HEADER_SIZE : Nat := 12

/-- The query-type switch of `parse_dns_query`. -/
def qtypeName (qtype : Nat) : String :=
  if qtype = 1 then "A"
  else if qtype = 28 then "AAAA"
  else if qtype = 5 then "CNAME"
  else if qtype = 15 then "MX"
  else if qtype = 16 then "TXT"
  else if qtype = 2 then "NS"
  else if qtype = 6 then "SOA"
  else toString qtype

/-- `parse_dns_query` (packet.cpp). -/
def parse_dns_query (info : PacketInfo) (d : Nat → Nat) (len : Nat) : PacketInfo :=
  if len < DNS_HEADER_SIZE then info
  else
    let flags := read16 d 2
    let qdcount := read16 d 4
    let is_query := flags &&& 0x8000 = 0
    if qdcount = 0 then info
    else
      let r := parse_dns_name d len DNS_HEADER_SIZE
      if r.1.isEmpty then info
      else
        let info := { info with hostname := ⟨r.1⟩, app_protocol := "DNS" }
        if r.2 + 4 ≤ len then
          { info with
            app_info := (if is_query then "Query " else "Response ") ++ qtypeName (read16 d r.2) }
        else info

/-- The HTTP request-method table of `parse_http_request`. -/
def httpMethods : List String :=
  ["GET ", "POST ", "PUT ", "DELETE ", "HEAD ", "OPTIONS ", "PATCH ", "CONNECT "]

/-- Scan `l` from index `i` (relative) for the first occurrence of
`pat`. -/
def findSubAux (pat : List Char) : List Char → Nat → Option Nat
  | [], _ => none
  | c :: rest, i =>
    if pat.isPrefixOf (c :: rest) then some i
    else findSubAux pat rest (i + 1)

/-- `std::string::find(pat, start)` for a nonempty pattern. -/
def strFindSub (l pat : List Char) (start : Nat) : Option Nat :=
  (findSubAux pat (l.drop start) 0).map (· + start)

/-- `std::string::rfind(char)`: index of the last occurrence. -/
def strRFindChar (c : Char) (l : List Char) : Option Nat :=
  (strFindChar c l.reverse).map (fun i => l.length - 1 - i)

/-- The CRLF-delimited `Host:` header scan of `parse_http_request` over
the bounded `content` prefix.  Each iteration moves `pos` past the found
line terminator, so `content.length + 1` fuel covers every iteration. -/
def hostScan (content : List Char) : Nat → Nat → Option String
  | 0, _ => none
  | fuel + 1, pos =>
    if pos < content.length then
      match strFindSub content ['\r', '\n'] pos with
      | none => none
      | some line_end =>
        let line := (content.drop pos).take (line_end - pos)
        if 6 < line.length ∧ (line.take 5).map asciiLower = "host:".data then
          let value_start := 5 + ((line.drop 5).takeWhile (· = ' ')).length
          let hostline := line.drop value_start
          some ⟨match strFindChar ':' hostline with
                | some colon => hostline.take colon
                | none => hostline⟩
        else if line = [] then none
        else hostScan content fuel (line_end + 2)
    else none

/-- The request-line method+path extraction of `parse_http_request`,
yielding the final `app_info` value. -/
def httpPathInfo (content : List Char) (method : String) : String :=
  if method ≠ "Response" then
    match strFindSub content ['\r', '\n'] 0 with
    | none => method
    | some first_line_end =>
      let request_line := content.take first_line_end
      match strFindChar ' ' request_line, strRFindChar ' ' request_line with
      | some path_start, some path_end =>
        if path_start < path_end then
          let path := (request_line.drop (path_start + 1)).take (path_end - path_start - 1)
          if 1 < path.length ∧ path.length < 50 then method ++ " " ++ ⟨path⟩ else method
        else method
      | _, _ => method
  else method

/-- `parse_http_request` (packet.cpp): detect a method keyword or
response status line, scan a bounded prefix for the `Host:` header, and
extract method+path as the info string. -/
def parse_http_request (info : PacketInfo) (d : Nat → Nat) (len : Nat) : PacketInfo :=
  if len < 16 then info
  else
    let direct : Option String :=
      (httpMethods.find? (fun m =>
        decide (m.data.length ≤ len) && decide (readChars d 0 m.data.length = m.data))).map
        (fun m => ⟨m.data.dropLast⟩)
    let methodFound : Option String :=
      match direct with
      | some m => some m
      | none =>
        if 9 ≤ len ∧ readChars d 0 7 = "HTTP/1.".data then some "Response" else none
    match methodFound with
    | none => info
    | some method =>
      let info := { info with app_protocol := "HTTP", app_info := method }
      let content := readChars d 0 (min len 2048)
      let info := match hostScan content (content.length + 1) 0 with
        | some h => { info with hostname := h }
        | none => info
      { info with app_info := httpPathInfo content method }

/-- The extension walk of `parse_tls_client_hello`; `pos` advances by at
least 4 per iteration, so `ext_end + 1` fuel covers every iteration. -/
def tlsExtLoop (info : PacketInfo) (d : Nat → Nat) : Nat → Nat → Nat → PacketInfo
  | 0, _, _ => info
  | fuel + 1, pos, ext_end =>
    if pos + 4 ≤ ext_end then
      let ext_type := byteAt d pos * 256 + byteAt d (pos + 1)
      let ext_len := byteAt d (pos + 2) * 256 + byteAt d (pos + 3)
      let pos' := pos + 4
      if ext_end < pos' + ext_len then info
      else if ext_type = 0 ∧ 5 ≤ ext_len then
        let sni_pos := pos' + 2
        if pos' + ext_len < sni_pos + 3 then info
        else
          let name_type := byteAt d sni_pos
          let name_len := byteAt d (sni_pos + 1) * 256 + byteAt d (sni_pos + 2)
          if name_type = 0 ∧ sni_pos + 3 + name_len ≤ pos' + ext_len then
            { info with
              hostname := ⟨readChars d (sni_pos + 3) name_len⟩
              app_protocol := "TLS"
              app_info := "Client Hello" }
          else tlsExtLoop info d fuel (pos' + ext_len) ext_end
      else tlsExtLoop info d fuel (pos' + ext_len) ext_end
    else info

/-- `parse_tls_client_hello` (packet.cpp): validate the handshake record
and ClientHello types, walk session id, cipher suites, compression
methods and the extensions block, and extract the SNI hostname. -/
def parse_tls_client_hello (info : PacketInfo) (d : Nat → Nat) (len : Nat) : PacketInfo :=
  if len < 5 then info
  else if byteAt d 0 ≠ 0x16 then info
  else if len < 5 + 4 then info
  else if byteAt d 5 ≠ 0x01 then info
  else if len < 9 + 35 then info
  else
    let session_id_len := byteAt d 43
    let pos1 := 44 + session_id_len
    if len < pos1 + 2 then info
    else
      let cipher_suites_len := byteAt d pos1 * 256 + byteAt d (pos1 + 1)
      let pos2 := pos1 + 2 + cipher_suites_len
      if len < pos2 + 1 then info
      else
        let compression_len := byteAt d pos2
        let pos3 := pos2 + 1 + compression_len
        if len < pos3 + 2 then info
        else
          let extensions_len := byteAt d pos3 * 256 + byteAt d (pos3 + 1)
          let pos4 := pos3 + 2
          let extensions_end := min (pos4 + extensions_len) len
          tlsExtLoop info d (extensions_end + 1) pos4 extensions_end

/-- `inet_ntop(AF_INET, ...)` of the four bytes at `off`: dotted-decimal
display. -/
def inet_ntop4 (d : Nat → Nat) (off : Nat) : String :=
  toString (byteAt d off) ++ "." ++ toString (byteAt d (off + 1)) ++ "."
    ++ toString (byteAt d (off + 2)) ++ "." ++ toString (byteAt d (off + 3))

/-- Length of the zero-group run starting at index `i`. -/
def zeroRunFrom (gs : List Nat) (i : Nat) : Nat :=
  ((gs.drop i).takeWhile (· = 0)).length

/-- Longest (leftmost on ties) run of zero 16-bit groups, when at least
two long. -/
def bestZeroRun (gs : List Nat) : Option (Nat × Nat) :=
  let best := (List.range gs.length).foldl
    (fun acc i => if acc.2 < zeroRunFrom gs i then (i, zeroRunFrom gs i) else acc) (0, 0)
  if 2 ≤ best.2 then some best else none

/-- `inet_ntop(AF_INET6, ...)` of the sixteen bytes at `off`: lowercase
hex groups with `::` compression of the longest zero run.  This models
the libc display format; the embedded-IPv4 special forms are not
reproduced (the string is display-only and no property depends on it). -/
def inet_ntop6 (d : Nat → Nat) (off : Nat) : String :=
  let gs := (List.range 8).map (fun i => byteAt d (off + 2 * i) * 256 + byteAt d (off + 2 * i + 1))
  let hex := fun n => String.mk (Nat.toDigits 16 n)
  match bestZeroRun gs with
  | none => String.intercalate ":" (gs.map hex)
  | some (i, l) =>
    String.intercalate ":" ((gs.take i).map hex) ++ "::"
      ++ String.intercalate ":" ((gs.drop (i + l)).map hex)

/-- The 802.1Q unwrap loop of `parse_packet`; each iteration consumes 4
bytes of `rem`, so `caplen + 1` fuel covers every iteration.  Returns
the final ethertype, payload offset and remaining byte count. -/
def vlanLoop (d : Nat → Nat) : Nat → Nat → Nat → Nat → Nat × Nat × Nat
  | 0, et, off, rem => (et, off, rem)
  | fuel + 1, et, off, rem =>
    if et = 0x8100 ∧ 4 ≤ rem then
      vlanLoop d fuel (read16 d (off + 2)) (off + 4) (rem - 4)
    else (et, off, rem)

/-- The well-known-port application dispatch at the end of
`parse_packet`, applied to the payload at `app_off` with `app_rem`
captured bytes remaining. -/
def appDispatch (info : PacketInfo) (d : Nat → Nat) (app_off app_rem : Nat) : PacketInfo :=
  if 0 < app_rem then
    if info.src_port = PORT_DNS ∨ info.dst_port = PORT_DNS then
      parse_dns_query info (fun i => d (app_off + i)) app_rem
    else if info.src_port = PORT_HTTP ∨ info.dst_port = PORT_HTTP then
      parse_http_request info (fun i => d (app_off + i)) app_rem
    else if info.dst_port = PORT_HTTPS then
      parse_tls_client_hello info (fun i => d (app_off + i)) app_rem
    else info
  else info

/-- The transport-layer and application-dispatch tail of `parse_packet`:
TCP or UDP header fields, then the well-known-port dispatch on the
application payload. -/
def parseL4 (info : PacketInfo) (d : Nat → Nat) (off rem : Nat) : PacketInfo :=
  if info.protocol = PROTO_TCP then
    if 20 ≤ rem then
      let info := { info with
        src_port := read16 d off
        dst_port := read16 d (off + 2)
        tcp_flags := byteAt d (off + 13) }
      let tcp_hdr_len := ((byteAt d (off + 12) >>> 4) &&& 0x0F) * 4
      if tcp_hdr_len ≤ rem then appDispatch info d (off + tcp_hdr_len) (rem - tcp_hdr_len)
      else info
    else info
  else if info.protocol = PROTO_UDP then
    if 8 ≤ rem then
      appDispatch { info with src_port := read16 d off, dst_port := read16 d (off + 2) }
        d (off + 8) (rem - 8)
    else info
  else info

/-- `parse_packet` (packet.cpp, application-layer variant): Ethernet,
VLAN unwrap, ARP / IPv4 / IPv6, TCP / UDP, then the port-based
application dispatch.  `now` stands for the capture timestamp the C code
takes from the system clock. -/
def parse_packet (now : Nat) (d : Nat → Nat) (caplen len : Nat) : PacketInfo :=
  let info : PacketInfo :=
    { timestamp := now
      length := caplen
      original_length := len
      ip_version := 0
      protocol := 0
      src_port := 0
      dst_port := 0
      tcp_flags := 0
      ttl := 0
      raw_data := readBytes d 0 caplen }
  if caplen < 14 then info
  else
    let info := { info with
      dst_mac := readBytes d 0 6
      src_mac := readBytes d 6 6
      ether_type := read16 d 12 }
    let v := vlanLoop d (caplen + 1) info.ether_type 14 (caplen - 14)
    let info := { info with ether_type := v.1 }
    let off := v.2.1
    let rem := v.2.2
    if info.ether_type = ETHERTYPE_ARP then
      if 28 ≤ rem then
        { info with src_ip := inet_ntop4 d (off + 14), dst_ip := inet_ntop4 d (off + 24) }
      else info
    else if info.ether_type = ETHERTYPE_IPV4 then
      if rem < 20 then info
      else
        let info := { info with
          ip_version := 4
          protocol := byteAt d (off + 9)
          ttl := byteAt d (off + 8)
          src_ip := inet_ntop4 d (off + 12)
          dst_ip := inet_ntop4 d (off + 16) }
        let ip_hdr_len := (byteAt d off &&& 0x0F) * 4
        if rem < ip_hdr_len then info
        else parseL4 info d (off + ip_hdr_len) (rem - ip_hdr_len)
    else if info.ether_type = ETHERTYPE_IPV6 then
      if rem < 40 then info
      else
        let info := { info with
          ip_version := 6
          protocol := byteAt d (off + 6)
          ttl := byteAt d (off + 7)
          src_ip := inet_ntop6 d (off + 8)
          dst_ip := inet_ntop6 d (off + 24) }
        parseL4 info d (off + 40) (rem - 40)
    else info

theorem dnsNameAux_jumped (d : Nat → Nat) (len : Nat) :
    ∀ (fuel pos off jc : Nat) (name : List Char),
      (dnsNameAux d len fuel pos true off jc name).2.1 = true
      ∧ (dnsNameAux d len fuel pos true off jc name).2.2.1 = off := by
  intro fuel
  induction fuel with
  | zero => intro pos off jc name; exact ⟨rfl, rfl⟩
  | succ fuel ih =>
    intro pos off jc name
    simp only [dnsNameAux]
    by_cases hg : pos < len ∧ jc < 50
    · rw [if_pos hg]
      by_cases h0 : byteAt d pos = 0
      · rw [if_pos h0]
        exact ⟨rfl, rfl⟩
      · rw [if_neg h0]
        by_cases hptr : byteAt d pos &&& 0xC0 = 0xC0
        · rw [if_pos hptr]
          by_cases hpl : len ≤ pos + 1
          · rw [if_pos hpl]
            exact ⟨rfl, rfl⟩
          · rw [if_neg hpl]
            exact ih _ _ _ _
        · rw [if_neg hptr]
          by_cases hover : len < pos + 1 + byteAt d pos
          · rw [if_pos hover]
            exact ⟨rfl, rfl⟩
          · rw [if_neg hover]
            exact ih _ _ _ _
    · rw [if_neg hg]
      exact ⟨rfl, rfl⟩

theorem dnsNameAux_cap (d : Nat → Nat) (len fuel pos : Nat) (jumped : Bool)
    (off jc : Nat) (name : List Char) (hjc : 50 ≤ jc) :
    dnsNameAux d len fuel pos jumped off jc name = (name, jumped, off, pos) := by
  cases fuel with
  | zero => rfl
  | succ fuel =>
    have hg : ¬ (pos < len ∧ jc < 50) := by omega
    simp only [dnsNameAux, if_neg hg]

theorem dnsNameAux_congr {len : Nat} {d₁ d₂ : Nat → Nat} (h : agreeBelow len d₁ d₂) :
    ∀ (fuel pos : Nat) (jumped : Bool) (off jc : Nat) (name : List Char),
      dnsNameAux d₁ len fuel pos jumped off jc name
        = dnsNameAux d₂ len fuel pos jumped off jc name := by
  intro fuel
  induction fuel with
  | zero => intros; rfl
  | succ fuel ih =>
    intro pos jumped off jc name
    simp only [dnsNameAux]
    by_cases hg : pos < len ∧ jc < 50
    · rw [if_pos hg, if_pos hg]
      have hb : byteAt d₁ pos = byteAt d₂ pos := byteAt_congr h hg.1
      rw [hb]
      by_cases h0 : byteAt d₂ pos = 0
      · rw [if_pos h0, if_pos h0]
      · rw [if_neg h0, if_neg h0]
        by_cases hptr : byteAt d₂ pos &&& 0xC0 = 0xC0
        · rw [if_pos hptr, if_pos hptr]
          by_cases hpl : len ≤ pos + 1
          · rw [if_pos hpl, if_pos hpl]
          · rw [if_neg hpl, if_neg hpl]
            have hb1 : byteAt d₁ (pos + 1) = byteAt d₂ (pos + 1) :=
              byteAt_congr h (by omega)
            rw [hb1, ih]
        · rw [if_neg hptr, if_neg hptr]
          by_cases hover : len < pos + 1 + byteAt d₂ pos
          · rw [if_pos hover, if_pos hover]
          · rw [if_neg hover, if_neg hover]
            have hrc : readChars d₁ (pos + 1) (byteAt d₂ pos)
                = readChars d₂ (pos + 1) (byteAt d₂ pos) :=
              readChars_congr h (by omega)
            rw [hrc, ih]
    · rw [if_neg hg, if_neg hg]

theorem dnsNameAux_step (d : Nat → Nat) (len fuel pos : Nat) (jumped : Bool)
    (off jc : Nat) (name : List Char) :
    dnsNameAux d len (fuel + 1) pos jumped off jc name
      = if pos < len ∧ jc < 50 then
          (if byteAt d pos = 0 then (name, jumped, if jumped then off else pos + 1, pos)
           else if byteAt d pos &&& 0xC0 = 0xC0 then
             if len ≤ pos + 1 then (name, jumped, off, pos)
             else
               dnsNameAux d len fuel ((byteAt d pos &&& 0x3F) * 256 + byteAt d (pos + 1))
                 true (if jumped then off else pos + 2) (jc + 1) name
           else if len < pos + 1 + byteAt d pos then (name, jumped, off, pos)
           else
             dnsNameAux d len fuel (pos + byteAt d pos + 1) jumped off jc
               (if name.isEmpty then readChars d (pos + 1) (byteAt d pos)
                 else name ++ '.' :: readChars d (pos + 1) (byteAt d pos)))
        else (name, jumped, off, pos) := rfl

theorem parse_dns_name_first_jump (d : Nat → Nat) (len off0 : Nat)
    (hlt : off0 < len) (hlt1 : off0 + 1 < len)
    (hptr : byteAt d off0 &&& 0xC0 = 0xC0) :
    (parse_dns_name d len off0).2 = off0 + 2 := by
  have hg : off0 < len ∧ 0 < 50 := ⟨hlt, by omega⟩
  have h0 : ¬ (byteAt d off0 = 0) := by
    intro hc
    rw [hc] at hptr
    simp at hptr
  have hr : dnsNameAux d len (51 * (len + 1) + 1) off0 false off0 0 []
      = dnsNameAux d len (51 * (len + 1))
          ((byteAt d off0 &&& 0x3F) * 256 + byteAt d (off0 + 1)) true (off0 + 2) 1 [] := by
    rw [dnsNameAux_step, if_pos hg, if_neg h0, if_pos hptr,
      if_neg (show ¬ len ≤ off0 + 1 by omega)]
    simp only [Bool.false_eq_true, if_false]
  have hgoal : (parse_dns_name d len off0).2
      = (if (dnsNameAux d len (51 * (len + 1) + 1) off0 false off0 0 []).2.1
         then (dnsNameAux d len (51 * (len + 1) + 1) off0 false off0 0 []).2.2.1
         else (dnsNameAux d len (51 * (len + 1) + 1) off0 false off0 0 []).2.2.2) := rfl
  rw [hgoal, hr]
  have hj := dnsNameAux_jumped d len (51 * (len + 1))
    ((byteAt d off0 &&& 0x3F) * 256 + byteAt d (off0 + 1)) (off0 + 2) 1 []
  simp [hj.1, hj.2]

/-- The C3 example buffer: labels `[3]www[6]google[3]com[0]` followed by
the compression-pointer bytes `0xC0 0x00`. -/
def dnsExampleBytes : List Nat :=
  [3, 119, 119, 119, 6, 103, 111, 111, 103, 108, 101, 3, 99, 111, 109, 0, 0xC0, 0x00]

/-- C3.  DNS name decoding: (1) once a jump has happened the stored
offset is never overwritten (nor is the flag cleared); (2) hence parsing
started at a compression pointer yields the offset just past that first
pointer, whatever later jumps do; (3) with the jump counter at 50 the
walk stops immediately, capping the total jumps at 50; (4) the walk
reads nothing at or beyond the supplied length — two buffers agreeing
below `len` decode identically; (5) the example buffer parsed at the
pointer yields `www.google.com` (with end offset 18, just past the
pointer), a lone zero label yields the empty name, and a self-pointing
pointer still terminates. -/
theorem claim_C3_dns_name_decoding :
    (∀ (d : Nat → Nat) (len fuel pos off jc : Nat) (name : List Char),
        (dnsNameAux d len fuel pos true off jc name).2.1 = true
        ∧ (dnsNameAux d len fuel pos true off jc name).2.2.1 = off)
    ∧ (∀ (d : Nat → Nat) (len off0 : Nat), off0 < len → off0 + 1 < len →
        byteAt d off0 &&& 0xC0 = 0xC0 → (parse_dns_name d len off0).2 = off0 + 2)
    ∧ (∀ (d : Nat → Nat) (len fuel pos : Nat) (jumped : Bool) (off jc : Nat)
        (name : List Char), 50 ≤ jc →
        dnsNameAux d len fuel pos jumped off jc name = (name, jumped, off, pos))
    ∧ (∀ (d₁ d₂ : Nat → Nat) (len : Nat), agreeBelow len d₁ d₂ →
        ∀ (fuel pos : Nat) (jumped : Bool) (off jc : Nat) (name : List Char),
          dnsNameAux d₁ len fuel pos jumped off jc name
            = dnsNameAux d₂ len fuel pos jumped off jc name)
    ∧ parse_dns_name (fun i => dnsExampleBytes.getD i 0) 18 16 = ("www.google.com".data, 18)
    ∧ parse_dns_name (fun i => [0].getD i 0) 1 0 = ([], 0)
    ∧ parse_dns_name (fun i => [0xC0, 0].getD i 0) 2 0 = ([], 2) := by
  refine ⟨fun d len fuel pos off jc name => dnsNameAux_jumped d len fuel pos off jc name,
    parse_dns_name_first_jump, ?_, ?_, by decide, by decide, by decide⟩
  · intro d len fuel pos jumped off jc name hjc
    exact dnsNameAux_cap d len fuel pos jumped off jc name hjc
  · intro d₁ d₂ len h fuel pos jumped off jc name
    exact dnsNameAux_congr h fuel pos jumped off jc name

/-- Witness for C3 at a concrete input: the example buffer's pointer at
offset 16 fixes the end-of-name offset to 18. -/
theorem claim_C3_witness :
    (16 < 18 ∧ 16 + 1 < 18
      ∧ byteAt (fun i => dnsExampleBytes.getD i 0) 16 &&& 0xC0 = 0xC0)
    ∧ (parse_dns_name (fun i => dnsExampleBytes.getD i 0) 18 16).2 = 16 + 2 :=
  ⟨⟨by decide, by decide, by decide⟩,
   claim_C3_dns_name_decoding.2.1 (fun i => dnsExampleBytes.getD i 0) 18 16
     (by decide) (by decide) (by decide)⟩

theorem find?_congrList {α : Type} (l : List α) {p q : α → Bool} (h : ∀ a, p a = q a) :
    l.find? p = l.find? q := by
  have hpq : p = q := funext h
  rw [hpq]

theorem parse_dns_name_congr {len : Nat} {d₁ d₂ : Nat → Nat} (h : agreeBelow len d₁ d₂)
    (off : Nat) : parse_dns_name d₁ len off = parse_dns_name d₂ len off := by
  unfold parse_dns_name
  rw [dnsNameAux_congr h]

theorem parse_dns_query_congr {len : Nat} {d₁ d₂ : Nat → Nat} (h : agreeBelow len d₁ d₂)
    (info : PacketInfo) :
    parse_dns_query info d₁ len = parse_dns_query info d₂ len := by
  unfold parse_dns_query
  by_cases h12 : len < DNS_HEADER_SIZE
  · rw [if_pos h12, if_pos h12]
  · rw [if_neg h12, if_neg h12]
    simp only [DNS_HEADER_SIZE] at h12
    have hf : read16 d₁ 2 = read16 d₂ 2 := read16_congr h (by omega)
    have hq : read16 d₁ 4 = read16 d₂ 4 := read16_congr h (by omega)
    have hname : parse_dns_name d₁ len DNS_HEADER_SIZE
        = parse_dns_name d₂ len DNS_HEADER_SIZE := parse_dns_name_congr h _
    rw [hf, hq, hname]
    by_cases hq0 : read16 d₂ 4 = 0
    · rw [if_pos hq0, if_pos hq0]
    · rw [if_neg hq0, if_neg hq0]
      by_cases hemp : (parse_dns_name d₂ len DNS_HEADER_SIZE).1.isEmpty
      · rw [if_pos hemp, if_pos hemp]
      · rw [if_neg hemp, if_neg hemp]
        by_cases hoff : (parse_dns_name d₂ len DNS_HEADER_SIZE).2 + 4 ≤ len
        · rw [if_pos hoff, if_pos hoff]
          have hr : read16 d₁ (parse_dns_name d₂ len DNS_HEADER_SIZE).2
              = read16 d₂ (parse_dns_name d₂ len DNS_HEADER_SIZE).2 :=
            read16_congr h (by omega)
          rw [hr]
        · rw [if_neg hoff, if_neg hoff]

theorem parse_http_request_congr {len : Nat} {d₁ d₂ : Nat → Nat} (h : agreeBelow len d₁ d₂)
    (info : PacketInfo) :
    parse_http_request info d₁ len = parse_http_request info d₂ len := by
  unfold parse_http_request
  by_cases h16 : len < 16
  · rw [if_pos h16, if_pos h16]
  · rw [if_neg h16, if_neg h16]
    have hlen : 16 ≤ len := Nat.le_of_not_lt h16
    have hpred : ∀ m : String,
        (decide (m.data.length ≤ len) && decide (readChars d₁ 0 m.data.length = m.data))
        = (decide (m.data.length ≤ len) && decide (readChars d₂ 0 m.data.length = m.data)) := by
      intro m
      by_cases hm : m.data.length ≤ len
      · rw [readChars_congr h (show 0 + m.data.length ≤ len by omega)]
      · rw [decide_eq_false hm, Bool.false_and, Bool.false_and]
    rw [find?_congrList _ hpred]
    rw [readChars_congr h (show 0 + 7 ≤ len by omega)]
    rw [readChars_congr h (show 0 + min len 2048 ≤ len by omega)]

theorem tlsExtLoop_congr {len : Nat} {d₁ d₂ : Nat → Nat} (h : agreeBelow len d₁ d₂)
    (info : PacketInfo) :
    ∀ (fuel pos ext_end : Nat), ext_end ≤ len →
      tlsExtLoop info d₁ fuel pos ext_end = tlsExtLoop info d₂ fuel pos ext_end := by
  intro fuel
  induction fuel with
  | zero => intro pos ext_end _; rfl
  | succ fuel ih =>
    intro pos ext_end hle
    simp only [tlsExtLoop]
    by_cases hg : pos + 4 ≤ ext_end
    · rw [if_pos hg, if_pos hg]
      rw [byteAt_congr h (show pos < len by omega),
          byteAt_congr h (show pos + 1 < len by omega),
          byteAt_congr h (show pos + 2 < len by omega),
          byteAt_congr h (show pos + 3 < len by omega)]
      by_cases hov : ext_end < pos + 4 + (byteAt d₂ (pos + 2) * 256 + byteAt d₂ (pos + 3))
      · rw [if_pos hov, if_pos hov]
      · rw [if_neg hov, if_neg hov]
        have hbound : pos + 4 + (byteAt d₂ (pos + 2) * 256 + byteAt d₂ (pos + 3)) ≤ len := by
          omega
        by_cases hsni : byteAt d₂ pos * 256 + byteAt d₂ (pos + 1) = 0
            ∧ 5 ≤ byteAt d₂ (pos + 2) * 256 + byteAt d₂ (pos + 3)
        · rw [if_pos hsni, if_pos hsni]
          by_cases hsh : pos + 4 + (byteAt d₂ (pos + 2) * 256 + byteAt d₂ (pos + 3))
              < pos + 4 + 2 + 3
          · rw [if_pos hsh, if_pos hsh]
          · rw [if_neg hsh, if_neg hsh]
            rw [byteAt_congr h (show pos + 4 + 2 < len by omega),
                byteAt_congr h (show pos + 4 + 2 + 1 < len by omega),
                byteAt_congr h (show pos + 4 + 2 + 2 < len by omega)]
            by_cases hnm : byteAt d₂ (pos + 4 + 2) = 0
                ∧ pos + 4 + 2 + 3
                    + (byteAt d₂ (pos + 4 + 2 + 1) * 256 + byteAt d₂ (pos + 4 + 2 + 2))
                  ≤ pos + 4 + (byteAt d₂ (pos + 2) * 256 + byteAt d₂ (pos + 3))
            · rw [if_pos hnm, if_pos hnm]
              rw [readChars_congr h (show pos + 4 + 2 + 3
                  + (byteAt d₂ (pos + 4 + 2 + 1) * 256 + byteAt d₂ (pos + 4 + 2 + 2)) ≤ len
                  by omega)]
            · rw [if_neg hnm, if_neg hnm]
              exact ih _ _ hle
        · rw [if_neg hsni, if_neg hsni]
          exact ih _ _ hle
    · rw [if_neg hg, if_neg hg]

theorem parse_tls_client_hello_congr {len : Nat} {d₁ d₂ : Nat → Nat}
    (h : agreeBelow len d₁ d₂) (info : PacketInfo) :
    parse_tls_client_hello info d₁ len = parse_tls_client_hello info d₂ len := by
  unfold parse_tls_client_hello
  by_cases h5 : len < 5
  · rw [if_pos h5, if_pos h5]
  · rw [if_neg h5, if_neg h5]
    rw [byteAt_congr h (show 0 < len by omega)]
    by_cases hrec : byteAt d₂ 0 ≠ 0x16
    · rw [if_pos hrec, if_pos hrec]
    · rw [if_neg hrec, if_neg hrec]
      by_cases h9 : len < 5 + 4
      · rw [if_pos h9, if_pos h9]
      · rw [if_neg h9, if_neg h9]
        rw [byteAt_congr h (show 5 < len by omega)]
        by_cases hhs : byteAt d₂ 5 ≠ 0x01
        · rw [if_pos hhs, if_pos hhs]
        · rw [if_neg hhs, if_neg hhs]
          by_cases h44 : len < 9 + 35
          · rw [if_pos h44, if_pos h44]
          · rw [if_neg h44, if_neg h44]
            rw [byteAt_congr h (show 43 < len by omega)]
            by_cases hp1 : len < 44 + byteAt d₂ 43 + 2
            · rw [if_pos hp1, if_pos hp1]
            · rw [if_neg hp1, if_neg hp1]
              rw [byteAt_congr h (show 44 + byteAt d₂ 43 < len by omega),
                  byteAt_congr h (show 44 + byteAt d₂ 43 + 1 < len by omega)]
              by_cases hp2 : len < 44 + byteAt d₂ 43 + 2
                  + (byteAt d₂ (44 + byteAt d₂ 43) * 256 + byteAt d₂ (44 + byteAt d₂ 43 + 1)) + 1
              · rw [if_pos hp2, if_pos hp2]
              · rw [if_neg hp2, if_neg hp2]
                rw [byteAt_congr h (show 44 + byteAt d₂ 43 + 2
                    + (byteAt d₂ (44 + byteAt d₂ 43) * 256 + byteAt d₂ (44 + byteAt d₂ 43 + 1))
                    < len by omega)]
                by_cases hp3 : len < 44 + byteAt d₂ 43 + 2
                    + (byteAt d₂ (44 + byteAt d₂ 43) * 256 + byteAt d₂ (44 + byteAt d₂ 43 + 1))
                    + 1
                    + byteAt d₂ (44 + byteAt d₂ 43 + 2
                        + (byteAt d₂ (44 + byteAt d₂ 43) * 256
                            + byteAt d₂ (44 + byteAt d₂ 43 + 1)))
                    + 2
                · rw [if_pos hp3, if_pos hp3]
                · rw [if_neg hp3, if_neg hp3]
                  rw [byteAt_congr h (show 44 + byteAt d₂ 43 + 2
                      + (byteAt d₂ (44 + byteAt d₂ 43) * 256 + byteAt d₂ (44 + byteAt d₂ 43 + 1))
                      + 1
                      + byteAt d₂ (44 + byteAt d₂ 43 + 2
                          + (byteAt d₂ (44 + byteAt d₂ 43) * 256
                              + byteAt d₂ (44 + byteAt d₂ 43 + 1)))
                      < len by omega),
                    byteAt_congr h (show 44 + byteAt d₂ 43 + 2
                      + (byteAt d₂ (44 + byteAt d₂ 43) * 256 + byteAt d₂ (44 + byteAt d₂ 43 + 1))
                      + 1
                      + byteAt d₂ (44 + byteAt d₂ 43 + 2
                          + (byteAt d₂ (44 + byteAt d₂ 43) * 256
                              + byteAt d₂ (44 + byteAt d₂ 43 + 1)))
                      + 1
                      < len by omega)]
                  exact tlsExtLoop_congr h _ _ _ _ (Nat.min_le_right _ _)

theorem vlanLoop_congr {caplen : Nat} {d₁ d₂ : Nat → Nat} (h : agreeBelow caplen d₁ d₂) :
    ∀ (fuel et off rem : Nat), off + rem ≤ caplen →
      vlanLoop d₁ fuel et off rem = vlanLoop d₂ fuel et off rem := by
  intro fuel
  induction fuel with
  | zero => intro et off rem _; rfl
  | succ fuel ih =>
    intro et off rem hle
    simp only [vlanLoop]
    by_cases hg : et = 0x8100 ∧ 4 ≤ rem
    · rw [if_pos hg, if_pos hg]
      rw [read16_congr h (show off + 2 + 1 < caplen by omega)]
      exact ih _ _ _ (by omega)
    · rw [if_neg hg, if_neg hg]

theorem vlanLoop_sum (d : Nat → Nat) :
    ∀ (fuel et off rem : Nat),
      (vlanLoop d fuel et off rem).2.1 + (vlanLoop d fuel et off rem).2.2 = off + rem := by
  intro fuel
  induction fuel with
  | zero => intro et off rem; rfl
  | succ fuel ih =>
    intro et off rem
    simp only [vlanLoop]
    by_cases hg : et = 0x8100 ∧ 4 ≤ rem
    · rw [if_pos hg]
      rw [ih]
      omega
    · rw [if_neg hg]

theorem inet_ntop4_congr {n : Nat} {d₁ d₂ : Nat → Nat} (h : agreeBelow n d₁ d₂)
    {off : Nat} (hb : off + 4 ≤ n) : inet_ntop4 d₁ off = inet_ntop4 d₂ off := by
  unfold inet_ntop4
  rw [byteAt_congr h (show off < n by omega),
      byteAt_congr h (show off + 1 < n by omega),
      byteAt_congr h (show off + 2 < n by omega),
      byteAt_congr h (show off + 3 < n by omega)]

theorem inet_ntop6_congr {n : Nat} {d₁ d₂ : Nat → Nat} (h : agreeBelow n d₁ d₂)
    {off : Nat} (hb : off + 16 ≤ n) : inet_ntop6 d₁ off = inet_ntop6 d₂ off := by
  have hgs : (List.range 8).map
        (fun i => byteAt d₁ (off + 2 * i) * 256 + byteAt d₁ (off + 2 * i + 1))
      = (List.range 8).map
        (fun i => byteAt d₂ (off + 2 * i) * 256 + byteAt d₂ (off + 2 * i + 1)) := by
    refine List.map_congr_left (fun i hi => ?_)
    have hi8 : i < 8 := List.mem_range.mp hi
    rw [byteAt_congr h (show off + 2 * i < n by omega),
        byteAt_congr h (show off + 2 * i + 1 < n by omega)]
  unfold inet_ntop6
  rw [hgs]

theorem shiftAgree {caplen : Nat} {d₁ d₂ : Nat → Nat} (h : agreeBelow caplen d₁ d₂)
    {app_off app_rem : Nat} (hb : app_off + app_rem ≤ caplen) :
    agreeBelow app_rem (fun i => d₁ (app_off + i)) (fun i => d₂ (app_off + i)) := by
  intro i hi
  exact h (app_off + i) (by omega)

theorem appDispatch_congr {caplen : Nat} {d₁ d₂ : Nat → Nat} (h : agreeBelow caplen d₁ d₂)
    (info : PacketInfo) {app_off app_rem : Nat} (hb : app_off + app_rem ≤ caplen) :
    appDispatch info d₁ app_off app_rem = appDispatch info d₂ app_off app_rem := by
  unfold appDispatch
  rw [parse_dns_query_congr (shiftAgree h hb),
      parse_http_request_congr (shiftAgree h hb),
      parse_tls_client_hello_congr (shiftAgree h hb)]

theorem parseL4_congr {caplen : Nat} {d₁ d₂ : Nat → Nat} (h : agreeBelow caplen d₁ d₂)
    (info : PacketInfo) {off rem : Nat} (hb : off + rem ≤ caplen) :
    parseL4 info d₁ off rem = parseL4 info d₂ off rem := by
  simp only [parseL4]
  by_cases hT : info.protocol = PROTO_TCP
  · rw [if_pos hT, if_pos hT]
    by_cases h20 : 20 ≤ rem
    · rw [if_pos h20, if_pos h20]
      rw [read16_congr h (show off + 1 < caplen by omega),
          read16_congr h (show off + 2 + 1 < caplen by omega),
          byteAt_congr h (show off + 13 < caplen by omega),
          byteAt_congr h (show off + 12 < caplen by omega)]
      by_cases hhl : (byteAt d₂ (off + 12) >>> 4 &&& 0x0F) * 4 ≤ rem
      · rw [if_pos hhl, if_pos hhl]
        exact appDispatch_congr h _ (show off + (byteAt d₂ (off + 12) >>> 4 &&& 0x0F) * 4
          + (rem - (byteAt d₂ (off + 12) >>> 4 &&& 0x0F) * 4) ≤ caplen by omega)
      · rw [if_neg hhl, if_neg hhl]
    · rw [if_neg h20, if_neg h20]
  · rw [if_neg hT, if_neg hT]
    by_cases hU : info.protocol = PROTO_UDP
    · rw [if_pos hU, if_pos hU]
      by_cases h8 : 8 ≤ rem
      · rw [if_pos h8, if_pos h8]
        rw [read16_congr h (show off + 1 < caplen by omega),
            read16_congr h (show off + 2 + 1 < caplen by omega)]
        exact appDispatch_congr h _ (show off + 8 + (rem - 8) ≤ caplen by omega)
      · rw [if_neg h8, if_neg h8]
    · rw [if_neg hU, if_neg hU]

theorem parse_packet_congr {caplen : Nat} {d₁ d₂ : Nat → Nat} (h : agreeBelow caplen d₁ d₂)
    (now len : Nat) : parse_packet now d₁ caplen len = parse_packet now d₂ caplen len := by
  simp only [parse_packet]
  rw [readBytes_congr h (show 0 + caplen ≤ caplen by omega)]
  by_cases h14 : caplen < 14
  · rw [if_pos h14, if_pos h14]
  · rw [if_neg h14, if_neg h14]
    rw [readBytes_congr h (show 0 + 6 ≤ caplen by omega),
        readBytes_congr h (show 6 + 6 ≤ caplen by omega),
        read16_congr h (show 12 + 1 < caplen by omega),
        vlanLoop_congr h (caplen + 1) (read16 d₂ 12) 14 (caplen - 14)
          (show 14 + (caplen - 14) ≤ caplen by omega)]
    have hsum := vlanLoop_sum d₂ (caplen + 1) (read16 d₂ 12) 14 (caplen - 14)
    set v := vlanLoop d₂ (caplen + 1) (read16 d₂ 12) 14 (caplen - 14) with hv
    have hsum' : v.2.1 + v.2.2 = caplen := by omega
    by_cases hA : v.1 = ETHERTYPE_ARP
    · rw [if_pos hA, if_pos hA]
      by_cases h28 : 28 ≤ v.2.2
      · rw [if_pos h28, if_pos h28]
        rw [inet_ntop4_congr h (show v.2.1 + 14 + 4 ≤ caplen by omega),
            inet_ntop4_congr h (show v.2.1 + 24 + 4 ≤ caplen by omega)]
      · rw [if_neg h28, if_neg h28]
    · rw [if_neg hA, if_neg hA]
      by_cases h4 : v.1 = ETHERTYPE_IPV4
      · rw [if_pos h4, if_pos h4]
        by_cases h20 : v.2.2 < 20
        · rw [if_pos h20, if_pos h20]
        · rw [if_neg h20, if_neg h20]
          rw [byteAt_congr h (show v.2.1 + 9 < caplen by omega),
              byteAt_congr h (show v.2.1 + 8 < caplen by omega),
              inet_ntop4_congr h (show v.2.1 + 12 + 4 ≤ caplen by omega),
              inet_ntop4_congr h (show v.2.1 + 16 + 4 ≤ caplen by omega),
              byteAt_congr h (show v.2.1 < caplen by omega)]
          by_cases hihl : v.2.2 < (byteAt d₂ v.2.1 &&& 0x0F) * 4
          · rw [if_pos hihl, if_pos hihl]
          · rw [if_neg hihl, if_neg hihl]
            exact parseL4_congr h _ (show v.2.1 + (byteAt d₂ v.2.1 &&& 0x0F) * 4
              + (v.2.2 - (byteAt d₂ v.2.1 &&& 0x0F) * 4) ≤ caplen by omega)
      · rw [if_neg h4, if_neg h4]
        by_cases h6 : v.1 = ETHERTYPE_IPV6
        · rw [if_pos h6, if_pos h6]
          by_cases h40 : v.2.2 < 40
          · rw [if_pos h40, if_pos h40]
          · rw [if_neg h40, if_neg h40]
            rw [byteAt_congr h (show v.2.1 + 6 < caplen by omega),
                byteAt_congr h (show v.2.1 + 7 < caplen by omega),
                inet_ntop6_congr h (show v.2.1 + 8 + 16 ≤ caplen by omega),
                inet_ntop6_congr h (show v.2.1 + 24 + 16 ≤ caplen by omega)]
            exact parseL4_congr h _ (show v.2.1 + 40 + (v.2.2 - 40) ≤ caplen by omega)
        · rw [if_neg h6, if_neg h6]

/-- C2: `parse_packet` is a total function (it always returns a record),
its result depends only on the bytes below `capturedLength` — so it
never reads a byte at an index ≥ `capturedLength` — and on every buffer
shorter than a full 14-byte Ethernet header the returned record has
`ip_version = 0`. -/
theorem claim_C2_parse_packet_safe :
    (∀ (now : Nat) (d₁ d₂ : Nat → Nat) (caplen len : Nat),
        agreeBelow caplen d₁ d₂ →
        parse_packet now d₁ caplen len = parse_packet now d₂ caplen len)
    ∧ (∀ (now : Nat) (d : Nat → Nat) (caplen len : Nat),
        caplen < 14 → (parse_packet now d caplen len).ip_version = 0) := by
  constructor
  · intro now d₁ d₂ caplen len h
    exact parse_packet_congr h now len
  · intro now d caplen len h14
    simp only [parse_packet]
    rw [if_pos h14]

theorem claim_C2_witness :
    parse_packet 7 (fun i => i + 1) 13 60
        = parse_packet 7 (fun i => if i < 13 then i + 1 else 99) 13 60
    ∧ (parse_packet 7 (fun i => i + 1) 13 60).ip_version = 0 :=
  ⟨claim_C2_parse_packet_safe.1 7 _ _ 13 60 (fun i hi => (if_pos hi).symm),
   claim_C2_parse_packet_safe.2 7 _ 13 60 (by decide)⟩

end NetMon
